import Mathlib

/-!
Verification of the model-reader crate: a decoder for two legacy binary
3D model formats (md2 and mdl) and a flattening pass (FlatModel) that
unifies position and texcoord index spaces into one.

Embedding conventions:
  - f32 arithmetic is modelled exactly over the rationals.
  - Rust Vec indexing panics are modelled by Option.none: a function that
    can panic returns an Option, and none marks the panic.
  - HashMap is modelled as an association list with unique keys; lookup
    returns the first binding.
  - The flattening state carries a ghost field writes recording, in
    execution order, every assignment of the form texcoords at slot i
    made by the source code, as the pair (i, value). It does not
    influence the computed mesh.
-/

namespace ModelReader

abbrev Vec3 := ℚ × ℚ × ℚ

/-- The flattened output mesh of flat_model.rs. -/
structure FlatModel where
  vertices : List (List Vec3)
  texcoords : List (ℚ × ℚ)
  indices : List (Nat × Nat × Nat)
deriving DecidableEq

/-- Association-list lookup, modelling HashMap lookup. -/
def alookup {α : Type} : List (Nat × α) → Nat → Option α
  | [], _ => none
  | (k, v) :: rest, key => if key = k then some v else alookup rest key

/-- Insert (tk, tv) into the sub-map stored under key k, modelling
map.get_mut(k).unwrap().insert(tk, tv). -/
def aupdate (m : List (Nat × List (Nat × Nat))) (k tk tv : Nat) :
    List (Nat × List (Nat × Nat)) :=
  m.map (fun e => if e.1 = k then (e.1, (tk, tv) :: e.2) else e)

/-- Two-level lookup: slot already assigned to the pair (p, t), if any. -/
def alookup2 (m : List (Nat × List (Nat × Nat))) (p t : Nat) : Option Nat :=
  match alookup m p with
  | none => none
  | some sub => alookup sub t

/-- Group a flat index list into triangles, as the for i in 0..len/3 loop
does in flat_model.rs. -/
def group3 : List Nat → List (Nat × Nat × Nat)
  | a :: b :: c :: rest => (a, b, c) :: group3 rest
  | _ => []

/-- Is b a UTF-8 continuation byte (0x80 to 0xBF)? -/
def isCont (b : Nat) : Bool := 128 ≤ b && b ≤ 191

/-- UTF-8 validity of a byte sequence, as checked by str::from_utf8:
shortest-form sequences only, no surrogates, maximum U+10FFFF. -/
def utf8Valid : List Nat → Bool
  | [] => true
  | b :: rest =>
    if b < 128 then utf8Valid rest
    else if b < 194 then false
    else if b ≤ 223 then
      match rest with
      | c1 :: r2 => isCont c1 && utf8Valid r2
      | [] => false
    else if b ≤ 239 then
      match rest with
      | c1 :: c2 :: r2 =>
        isCont c1 && (b ≠ 224 || 160 ≤ c1) && (b ≠ 237 || c1 ≤ 159) &&
          isCont c2 && utf8Valid r2
      | _ => false
    else if b ≤ 244 then
      match rest with
      | c1 :: c2 :: c3 :: r2 =>
        isCont c1 && (b ≠ 240 || 144 ≤ c1) && (b ≠ 244 || c1 ≤ 143) &&
          isCont c2 && isCont c3 && utf8Valid r2
      | _ => false
    else false

/-- lib.rs to_utf8: truncate the buffer at the first zero byte (whole
buffer when none) and validate that prefix; none models Utf8Error. The
resulting string is represented by its byte sequence. -/
def to_utf8 (bytes : List Nat) : Option (List Nat) :=
  match bytes.findIdx? (fun b => b == 0) with
  | some i =>
    if utf8Valid (bytes.take i) then some (bytes.take i) else none
  | none =>
    if utf8Valid bytes then some bytes else none

namespace mdlDec

/-!
Byte-level embedding of the mdl binary decoder (mdl.rs). The byte source
is a list of byte values consumed from the front, as the sequential Read
calls do. Only errors distinguish outcomes, with the message strings of
lib.rs Error constructors.
-/

/-- The error kinds of lib.rs Error, keyed by their message. -/
inductive DErr where
  | io : String → DErr
  | utf8 : String → DErr
  | unsupported : String → DErr
deriving DecidableEq

/-- Read one byte. -/
def readU8 : List Nat → Option (Nat × List Nat)
  | [] => none
  | b :: r => some (b, r)

/-- Read exactly n bytes. -/
def readBytes : Nat → List Nat → Option (List Nat × List Nat)
  | 0, s => some ([], s)
  | _ + 1, [] => none
  | n + 1, b :: r => (readBytes n r).map (fun q => (b :: q.1, q.2))

/-- Little-endian signed 32-bit value of four bytes. -/
def i32val (b0 b1 b2 b3 : Nat) : Int :=
  let v := b0 + 256 * (b1 + 256 * (b2 + 256 * b3))
  if v < 2 ^ 31 then (v : Int) else (v : Int) - 2 ^ 32

/-- read_i32 little-endian. -/
def readI32 (s : List Nat) : Option (Int × List Nat) :=
  match readBytes 4 s with
  | none => none
  | some (bs, r) =>
    match bs with
    | [b0, b1, b2, b3] => some (i32val b0 b1 b2 b3, r)
    | _ => none

/-- Header fields of mdl.rs consumed by the section readers, already
decoded; read_header itself is byte-reinterpretation plus the
ident/version checks and is not needed by the claims. -/
structure DHeader where
  num_skins : Int
  skin_width : Int
  skin_height : Int
  num_verices : Int
  num_faces : Int
  num_frames : Int
deriving DecidableEq

/-- A decoded skin record. -/
structure DSkin where
  group : Int
  data : List Nat
deriving DecidableEq

/-- A decoded texcoord record. -/
structure DTexCoord where
  onseam : Int
  s : Int
  t : Int
deriving DecidableEq

/-- A decoded triangle record. -/
structure DTriangle where
  facefront : Int
  vertex : Int × Int × Int
deriving DecidableEq

/-- A decoded raw vertex record. -/
structure DVertex where
  v : List Nat
  normal_idx : Nat
deriving DecidableEq

/-- A decoded frame record. -/
structure DFrame where
  type_ : Int
  bboxmin : DVertex
  bboxmax : DVertex
  name : List Nat
  verts : List DVertex
deriving DecidableEq

/-- A fully decoded mdl model at byte level. -/
structure DModel where
  skins : List DSkin
  texcoords : List DTexCoord
  triangles : List DTriangle
  frames : List DFrame
deriving DecidableEq

/-- Loop body of Model::read_skins over the declared skin count. -/
def readSkinsLoop (wxh : Nat) : Nat → List Nat →
    Except DErr (List DSkin × List Nat)
  | 0, s => .ok ([], s)
  | k + 1, s =>
    match readI32 s with
    | none => .error (.io "failed to read skin group")
    | some (g, s1) =>
      if g ≠ 0 then .error (.unsupported "skin groups are not supported.")
      else
        match readBytes wxh s1 with
        | none => .error (.io "failed to read skin data")
        | some (data, s2) =>
          (readSkinsLoop wxh k s2).map (fun q => (⟨g, data⟩ :: q.1, q.2))

/-- Model::read_skins. -/
def read_skins (h : DHeader) (s : List Nat) :
    Except DErr (List DSkin × List Nat) :=
  readSkinsLoop ((h.skin_width * h.skin_height).toNat) h.num_skins.toNat s

/-- Loop body of Model::read_texcoords. -/
def readTexcoordsLoop : Nat → List Nat →
    Except DErr (List DTexCoord × List Nat)
  | 0, s => .ok ([], s)
  | k + 1, s =>
    match readI32 s with
    | none => .error (.io "failed to read texcoord")
    | some (onseam, s1) =>
      match readI32 s1 with
      | none => .error (.io "failed to read texcoord")
      | some (sv, s2) =>
        match readI32 s2 with
        | none => .error (.io "failed to read texcoord")
        | some (tv, s3) =>
          (readTexcoordsLoop k s3).map (fun q => (⟨onseam, sv, tv⟩ :: q.1, q.2))

/-- Model::read_texcoords. -/
def read_texcoords (h : DHeader) (s : List Nat) :
    Except DErr (List DTexCoord × List Nat) :=
  readTexcoordsLoop h.num_verices.toNat s

/-- Loop body of Model::read_triangles. -/
def readTrianglesLoop : Nat → List Nat →
    Except DErr (List DTriangle × List Nat)
  | 0, s => .ok ([], s)
  | k + 1, s =>
    match readI32 s with
    | none => .error (.io "failed to read triangle")
    | some (ff, s1) =>
      match readI32 s1 with
      | none => .error (.io "failed to read triangle")
      | some (a, s2) =>
        match readI32 s2 with
        | none => .error (.io "failed to read triangle")
        | some (b, s3) =>
          match readI32 s3 with
          | none => .error (.io "failed to read triangle")
          | some (c, s4) =>
            (readTrianglesLoop k s4).map
              (fun q => (⟨ff, a, b, c⟩ :: q.1, q.2))

/-- Model::read_triangles. -/
def read_triangles (h : DHeader) (s : List Nat) :
    Except DErr (List DTriangle × List Nat) :=
  readTrianglesLoop h.num_faces.toNat s

/-- Read one 4-byte raw vertex, with the given failure message. -/
def readVertex (msg : String) (s : List Nat) :
    Except DErr (DVertex × List Nat) :=
  match readBytes 3 s with
  | none => .error (.io msg)
  | some (v, s1) =>
    match readU8 s1 with
    | none => .error (.io msg)
    | some (ni, s2) => .ok (⟨v, ni⟩, s2)

/-- Inner vertex loop of Model::read_frames. -/
def readVertsLoop : Nat → List Nat → Except DErr (List DVertex × List Nat)
  | 0, s => .ok ([], s)
  | k + 1, s =>
    match readVertex "failed to read vertex" s with
    | .error e => .error e
    | .ok (v, s1) => (readVertsLoop k s1).map (fun q => (v :: q.1, q.2))

/-- Loop body of Model::read_frames over the declared frame count. -/
def readFramesLoop (nv : Nat) : Nat → List Nat →
    Except DErr (List DFrame × List Nat)
  | 0, s => .ok ([], s)
  | k + 1, s =>
    match readI32 s with
    | none => .error (.io "failed to read frame type")
    | some (ty, s1) =>
      if ty ≠ 0 then .error (.unsupported "group frames are not supported.")
      else
        match readVertex "failed to read bbox min" s1 with
        | .error e => .error e
        | .ok (bmin, s2) =>
          match readVertex "failed to read bbox max" s2 with
          | .error e => .error e
          | .ok (bmax, s3) =>
            match readBytes 16 s3 with
            | none => .error (.io "failed to read frame name.")
            | some (buf, s4) =>
              match to_utf8 buf with
              | none => .error (.utf8 "failed to covert frame name to utf8.")
              | some nm =>
                match readVertsLoop nv s4 with
                | .error e => .error e
                | .ok (vs, s5) =>
                  (readFramesLoop nv k s5).map
                    (fun q => (⟨ty, bmin, bmax, nm, vs⟩ :: q.1, q.2))

/-- Model::read_frames. -/
def read_frames (h : DHeader) (s : List Nat) :
    Except DErr (List DFrame × List Nat) :=
  readFramesLoop h.num_verices.toNat h.num_frames.toNat s

/-- The section-reading sequence of Model::from_reader after the header:
a Model record exists only when every section decodes. -/
def decodeBody (h : DHeader) (s : List Nat) : Except DErr DModel := do
  let (skins, s1) ← read_skins h s
  let (tcs, s2) ← read_texcoords h s1
  let (tris, s3) ← read_triangles h s2
  let (frames, _) ← read_frames h s3
  pure ⟨skins, tcs, tris, frames⟩

end mdlDec

namespace md2

/-- md2 texcoord record: raw i16 texel coordinates. -/
structure TexCoord where
  s : Int
  t : Int
deriving DecidableEq

/-- md2 triangle: three position indices and three texcoord indices (u16). -/
structure Triangle where
  vertex : Nat × Nat × Nat
  st_idx : Nat × Nat × Nat
deriving DecidableEq

/-- md2 compressed vertex: three u8 samples plus a normal index. -/
structure Vertex where
  v : Nat × Nat × Nat
  normal_idx : Nat
deriving DecidableEq

/-- md2 key-frame: per-frame affine transform plus compressed vertices. -/
structure Frame where
  scale : Vec3
  translate : Vec3
  name : String
  vertices : List Vertex
deriving DecidableEq

/-- The md2 header fields consumed by flattening; the remaining decoded
header fields (counts and byte offsets) play no role in the claims. -/
structure Header where
  skin_width : Int
  skin_height : Int
deriving DecidableEq

/-- A decoded md2 model record. -/
structure Model where
  header : Header
  texcoords : List TexCoord
  faces : List Triangle
  frames : List Frame
deriving DecidableEq

/-- Decompression of one vertex: real position = sample * scale + translate,
per axis. -/
def uncompress (scale translate : Vec3) (v : Vertex) : Vec3 :=
  ((v.v.1 : ℚ) * scale.1 + translate.1,
   (v.v.2.1 : ℚ) * scale.2.1 + translate.2.1,
   (v.v.2.2 : ℚ) * scale.2.2 + translate.2.2)

/-- The per-frame decoded position lists built at the top of from_md2. -/
def decodedFrames (m : Model) : List (List Vec3) :=
  m.frames.map (fun fr => fr.vertices.map (uncompress fr.scale fr.translate))

/-- Original per-frame vertex count (the length of the first decoded frame). -/
def nVerts (m : Model) : Nat :=
  match m.frames with
  | [] => 0
  | fr :: _ => fr.vertices.length

/-- State of the from_md2 flattening loop. -/
structure St where
  verts : List (List Vec3)
  set : List (Nat × List (Nat × Nat))
  indices : List Nat
  tex : List (ℚ × ℚ)
  writes : List (Nat × (ℚ × ℚ))
deriving DecidableEq

/-- Current flattened length: the length of the first frame list. -/
def stLen (st : St) : Nat := (st.verts.headD []).length

/-- Processing of one triangle corner by the from_md2 loop body.
c.1 is the corner's position index, c.2 its texcoord index. -/
def cornerStep (m : Model) (w h : ℚ) (st : St) (c : Nat × Nat) : Option St :=
  match m.texcoords.get? c.2 with
  | none => none
  | some tc =>
    match alookup st.set c.1 with
    | none =>
      if c.1 < st.tex.length then
        some ⟨st.verts, (c.1, [(c.2, c.1)]) :: st.set,
              st.indices ++ [c.1],
              st.tex.set c.1 ((tc.s : ℚ) / w, (tc.t : ℚ) / h),
              st.writes ++ [(c.1, ((tc.s : ℚ) / w, (tc.t : ℚ) / h))]⟩
      else none
    | some sub =>
      match alookup sub c.2 with
      | some idx =>
        some ⟨st.verts, st.set, st.indices ++ [idx], st.tex, st.writes⟩
      | none =>
        if ∀ f ∈ st.verts, c.1 < f.length then
          match (st.verts.map (fun f => f ++ [f.getD c.1 (0, 0, 0)])).head? with
          | none => none
          | some f0 =>
            if f0.length - 1 < st.tex.length then
              some ⟨st.verts.map (fun f => f ++ [f.getD c.1 (0, 0, 0)]),
                    aupdate st.set c.1 c.2 (f0.length - 1),
                    st.indices ++ [f0.length - 1],
                    st.tex.set (f0.length - 1) ((tc.s : ℚ) / w, (tc.t : ℚ) / h),
                    st.writes ++ [(f0.length - 1,
                      ((tc.s : ℚ) / w, (tc.t : ℚ) / h))]⟩
            else none
        else none

/-- The corner sequence of a face list, in file order. -/
def cornersOf : List Triangle → List (Nat × Nat)
  | [] => []
  | f :: rest =>
    (f.vertex.1, f.st_idx.1) :: (f.vertex.2.1, f.st_idx.2.1) ::
      (f.vertex.2.2, f.st_idx.2.2) :: cornersOf rest

/-- Folding the corner loop; none marks a panic. -/
def runCorners (m : Model) (w h : ℚ) : St → List (Nat × Nat) → Option St
  | st, [] => some st
  | st, c :: rest =>
    match cornerStep m w h st c with
    | none => none
    | some st2 => runCorners m w h st2 rest

/-- Initial flattening state of from_md2: decoded frames, empty map and
index list, texcoord buffer preallocated at twice the vertex count. -/
def initSt (m : Model) (f0 : List Vec3) : St :=
  ⟨decodedFrames m, [], [], List.replicate (f0.length * 2) (0, 0), []⟩

/-- The whole from_md2 corner loop, panics included. -/
def run (m : Model) : Option St :=
  match (decodedFrames m).head? with
  | none => none
  | some f0 =>
    runCorners m (m.header.skin_width : ℚ) (m.header.skin_height : ℚ)
      (initSt m f0) (cornersOf m.faces)

/-- The from_md2 corner loop stopped after the first k corners. -/
def runOn (m : Model) (k : Nat) : Option St :=
  match (decodedFrames m).head? with
  | none => none
  | some f0 =>
    runCorners m (m.header.skin_width : ℚ) (m.header.skin_height : ℚ)
      (initSt m f0) ((cornersOf m.faces).take k)

/-- Projection of the loop state that determines control flow: the
position-to-texcoord-to-slot map and the current flattened length. -/
structure ProjSt where
  set : List (Nat × List (Nat × Nat))
  len : Nat
deriving DecidableEq

/-- Control-flow projection of cornerStep: tracks only the map and the
flattened length, and never fails. -/
def projStep (st : ProjSt) (c : Nat × Nat) : ProjSt :=
  match alookup st.set c.1 with
  | none => ⟨(c.1, [(c.2, c.1)]) :: st.set, st.len⟩
  | some sub =>
    match alookup sub c.2 with
    | some _ => st
    | none => ⟨aupdate st.set c.1 c.2 st.len, st.len + 1⟩

/-- Fold of the control-flow projection. -/
def projRun : ProjSt → List (Nat × Nat) → ProjSt
  | st, [] => st
  | st, c :: rest => projRun (projStep st c) rest

/-- The flattened length the corner loop is heading for (initial count
plus one per vertex split). -/
def finalLen (m : Model) : Nat :=
  (projRun ⟨[], nVerts m⟩ (cornersOf m.faces)).len

/-- Well-formedness of a decoded md2 model: at least one frame, all frames
with the same declared vertex count, and all triangle corner references in
range, as the md2 binary layout guarantees for a fully decoded file. -/
def Valid (m : Model) : Prop :=
  m.frames ≠ [] ∧
  (∀ fr ∈ m.frames, fr.vertices.length = nVerts m) ∧
  ∀ f ∈ m.faces,
    (f.vertex.1 < nVerts m ∧ f.vertex.2.1 < nVerts m ∧
       f.vertex.2.2 < nVerts m) ∧
    (f.st_idx.1 < m.texcoords.length ∧ f.st_idx.2.1 < m.texcoords.length ∧
       f.st_idx.2.2 < m.texcoords.length)

instance (m : Model) : Decidable (Valid m) := by
  unfold Valid; infer_instance

end md2

namespace mdl

/-- mdl texcoord record: on-seam flag plus raw i32 texel coordinates. -/
structure TexCoord where
  onseam : Int
  s : Int
  t : Int
deriving DecidableEq

/-- mdl triangle: facing flag (0 is back-facing) and three position
indices into the frame vertex list. -/
structure Triangle where
  facefront : Int
  vertex : Nat × Nat × Nat
deriving DecidableEq

/-- mdl compressed vertex: three u8 samples plus a normal index. -/
structure Vertex where
  v : Nat × Nat × Nat
  normal_idx : Nat
deriving DecidableEq

/-- mdl simple frame: bounding box, name, compressed vertices. -/
structure SimpleFrame where
  bboxmin : Vertex
  bboxmax : Vertex
  name : String
  verts : List Vertex
deriving DecidableEq

/-- mdl frame record (only the ungrouped kind decodes). -/
structure Frame where
  type_ : Int
  frame : SimpleFrame
deriving DecidableEq

/-- The mdl header fields consumed by flattening. -/
structure Header where
  scale : Vec3
  translate : Vec3
  skin_width : Int
  skin_height : Int
  num_verices : Int
deriving DecidableEq

/-- A decoded mdl model record. -/
structure Model where
  header : Header
  texcoords : List TexCoord
  triangles : List Triangle
  frames : List Frame
deriving DecidableEq

/-- Decompression of one vertex with the model-wide transform. -/
def uncompress (scale translate : Vec3) (v : Vertex) : Vec3 :=
  ((v.v.1 : ℚ) * scale.1 + translate.1,
   (v.v.2.1 : ℚ) * scale.2.1 + translate.2.1,
   (v.v.2.2 : ℚ) * scale.2.2 + translate.2.2)

/-- The per-frame decoded position lists built at the top of from_mdl. -/
def decodedFrames (m : Model) : List (List Vec3) :=
  m.frames.map (fun fr =>
    fr.frame.verts.map (uncompress m.header.scale m.header.translate))

/-- Original per-frame vertex count (length of the first frame). -/
def nVerts (m : Model) : Nat :=
  match m.frames with
  | [] => 0
  | fr :: _ => fr.frame.verts.length

/-- State of the from_mdl flattening loop. -/
structure St where
  verts : List (List Vec3)
  indices : List Nat
  tex : List (ℚ × ℚ)
  writes : List (Nat × (ℚ × ℚ))
deriving DecidableEq

/-- Current flattened length: the length of the first frame list. -/
def stLen (st : St) : Nat := (st.verts.headD []).length

/-- The plain normalized texcoord of position index p:
 (s + 0.5) / width and (t + 0.5) / height. -/
def plainST (m : Model) (p : Nat) : ℚ × ℚ :=
  match m.texcoords.get? p with
  | none => (0, 0)
  | some tc =>
    (((tc.s : ℚ) + 1/2) / (m.header.skin_width : ℚ),
     ((tc.t : ℚ) + 1/2) / (m.header.skin_height : ℚ))

/-- The seam-adjusted normalized texcoord of position index p:
 (s + width/2 + 0.5) / width and (t + 0.5) / height. -/
def seamST (m : Model) (p : Nat) : ℚ × ℚ :=
  match m.texcoords.get? p with
  | none => (0, 0)
  | some tc =>
    (((tc.s : ℚ) + (m.header.skin_width : ℚ) * (1/2) + 1/2) /
       (m.header.skin_width : ℚ),
     ((tc.t : ℚ) + 1/2) / (m.header.skin_height : ℚ))

/-- Processing of one triangle corner by the from_mdl loop body.
c.1 is the is_back flag of the corner's triangle, c.2 the position index. -/
def cornerStep (m : Model) (st : St) (c : Bool × Nat) : Option St :=
  match m.texcoords.get? c.2 with
  | none => none
  | some tc =>
    if c.1 = true ∧ tc.onseam > 0 then
      if ∀ f ∈ st.verts, c.2 < f.length then
        match (st.verts.map (fun f => f ++ [f.getD c.2 (0, 0, 0)])).head? with
        | none => none
        | some f0 =>
          if f0.length - 1 < st.tex.length then
            some ⟨st.verts.map (fun f => f ++ [f.getD c.2 (0, 0, 0)]),
                  st.indices ++ [f0.length - 1],
                  st.tex.set (f0.length - 1) (seamST m c.2),
                  st.writes ++ [(f0.length - 1, seamST m c.2)]⟩
          else none
      else none
    else
      if c.2 < st.tex.length then
        some ⟨st.verts, st.indices ++ [c.2],
              st.tex.set c.2 (plainST m c.2),
              st.writes ++ [(c.2, plainST m c.2)]⟩
      else none

/-- The corner sequence of the triangle list, each corner tagged with its
triangle's is_back flag. -/
def cornersOf : List Triangle → List (Bool × Nat)
  | [] => []
  | t :: rest =>
    (decide (t.facefront = 0), t.vertex.1) ::
      (decide (t.facefront = 0), t.vertex.2.1) ::
      (decide (t.facefront = 0), t.vertex.2.2) :: cornersOf rest

/-- Folding the corner loop; none marks a panic. -/
def runCorners (m : Model) : St → List (Bool × Nat) → Option St
  | st, [] => some st
  | st, c :: rest =>
    match cornerStep m st c with
    | none => none
    | some st2 => runCorners m st2 rest

/-- Initial flattening state of from_mdl: decoded frames, empty index
list, texcoord buffer preallocated at three times the vertex count. -/
def initSt (m : Model) (f0 : List Vec3) : St :=
  ⟨decodedFrames m, [], List.replicate (f0.length * 3) (0, 0), []⟩

/-- The whole from_mdl corner loop, panics included. -/
def run (m : Model) : Option St :=
  match (decodedFrames m).head? with
  | none => none
  | some f0 => runCorners m (initSt m f0) (cornersOf m.triangles)

/-- The from_mdl corner loop stopped after the first k corners. -/
def runOn (m : Model) (k : Nat) : Option St :=
  match (decodedFrames m).head? with
  | none => none
  | some f0 => runCorners m (initSt m f0) ((cornersOf m.triangles).take k)

/-- Whether a corner takes the seam-duplication branch. -/
def isSeam (m : Model) (c : Bool × Nat) : Bool :=
  c.1 && (match m.texcoords.get? c.2 with
          | none => false
          | some tc => decide (tc.onseam > 0))

/-- The flattened length the corner loop is heading for (initial count
plus one per seam duplication). -/
def finalLen (m : Model) : Nat :=
  nVerts m + (cornersOf m.triangles).countP (fun c => isSeam m c)

/-- Well-formedness of a decoded mdl model: at least one frame, all frames
with the same declared vertex count, and all triangle corner references in
range of both the vertex and the texcoord tables (the mdl layout stores one
texcoord per vertex). -/
def Valid (m : Model) : Prop :=
  m.frames ≠ [] ∧
  (∀ fr ∈ m.frames, fr.frame.verts.length = nVerts m) ∧
  ∀ t ∈ m.triangles,
    (t.vertex.1 < nVerts m ∧ t.vertex.2.1 < nVerts m ∧
       t.vertex.2.2 < nVerts m) ∧
    (t.vertex.1 < m.texcoords.length ∧ t.vertex.2.1 < m.texcoords.length ∧
       t.vertex.2.2 < m.texcoords.length)

instance (m : Model) : Decidable (Valid m) := by
  unfold Valid; infer_instance

end mdl

/-- FlatModel::from_md2, panics modelled as none. -/
def FlatModel.from_md2 (m : md2.Model) : Option FlatModel :=
  match md2.run m with
  | none => none
  | some st =>
    match st.verts.head? with
    | none => none
    | some f0 => some ⟨st.verts, st.tex.take f0.length, group3 st.indices⟩

/-- FlatModel::from_mdl, panics modelled as none. -/
def FlatModel.from_mdl (m : mdl.Model) : Option FlatModel :=
  match mdl.run m with
  | none => none
  | some st =>
    match st.verts.head? with
    | none => none
    | some f0 => some ⟨st.verts, st.tex.take f0.length, group3 st.indices⟩

/-- Flattened slot count of an output mesh: the length of its first
per-frame vertex list. -/
def flatLen (fm : FlatModel) : Nat := (fm.vertices.headD []).length

/-- An md2 model record with zero frames. -/
def md2NoFrames : md2.Model :=
  { header := { skin_width := 64, skin_height := 64 }
    texcoords := [⟨0, 0⟩]
    faces := [{ vertex := (0, 0, 0), st_idx := (0, 0, 0) }]
    frames := [] }

/-- An md2 model record with one frame and zero triangles. -/
def md2NoFaces : md2.Model :=
  { header := { skin_width := 64, skin_height := 64 }
    texcoords := [⟨0, 0⟩]
    faces := []
    frames := [{ scale := (1, 1, 1), translate := (0, 0, 0), name := "f",
                 vertices := [⟨(5, 6, 7), 0⟩] }] }

/-- The end-to-end md2 scenario of the spec: two frames, four base
vertices, two triangles sharing position 0 with texcoord indices 0 and 3,
skin 64 by 64. -/
def md2Ex : md2.Model :=
  { header := { skin_width := 64, skin_height := 64 }
    texcoords := [⟨0, 0⟩, ⟨16, 0⟩, ⟨16, 16⟩, ⟨32, 0⟩, ⟨0, 16⟩]
    faces := [{ vertex := (0, 1, 2), st_idx := (0, 1, 2) },
              { vertex := (0, 2, 3), st_idx := (3, 2, 4) }]
    frames := [{ scale := (1, 1, 1), translate := (0, 0, 0), name := "f0",
                 vertices := [⟨(0, 0, 0), 0⟩, ⟨(1, 0, 0), 0⟩,
                              ⟨(2, 0, 0), 0⟩, ⟨(3, 0, 0), 0⟩] },
               { scale := (1, 1, 1), translate := (0, 0, 0), name := "f1",
                 vertices := [⟨(0, 0, 0), 0⟩, ⟨(0, 1, 0), 0⟩,
                              ⟨(0, 2, 0), 0⟩, ⟨(0, 3, 0), 0⟩] }] }

/-- An md2 model with one vertex whose only texcoord has s = 16, t = 8
on a 64 by 64 skin. -/
def md2Half : md2.Model :=
  { header := { skin_width := 64, skin_height := 64 }
    texcoords := [⟨16, 8⟩]
    faces := [{ vertex := (0, 0, 0), st_idx := (0, 0, 0) }]
    frames := [{ scale := (1, 1, 1), translate := (0, 0, 0), name := "f",
                 vertices := [⟨(5, 6, 7), 0⟩] }] }

/-- An md2 model whose splits overflow the texcoord buffer: one base
vertex referenced with three distinct texcoord indices needs three slots,
one more than the preallocated two. -/
def md2Ovf : md2.Model :=
  { header := { skin_width := 64, skin_height := 64 }
    texcoords := [⟨0, 0⟩, ⟨1, 0⟩, ⟨2, 0⟩]
    faces := [{ vertex := (0, 0, 0), st_idx := (0, 1, 2) }]
    frames := [{ scale := (1, 1, 1), translate := (0, 0, 0), name := "f",
                 vertices := [⟨(5, 6, 7), 0⟩] }] }

/-- An mdl model record with zero frames. -/
def mdlNoFrames : mdl.Model :=
  { header := { scale := (1, 1, 1), translate := (0, 0, 0), skin_width := 64,
                skin_height := 64, num_verices := 1 }
    texcoords := [⟨0, 0, 0⟩]
    triangles := [{ facefront := 1, vertex := (0, 0, 0) }]
    frames := [] }

/-- One mdl frame with the given raw vertices. -/
def mdlFrame1 (vs : List mdl.Vertex) : mdl.Frame :=
  { type_ := 0
    frame := { bboxmin := ⟨(0, 0, 0), 0⟩, bboxmax := ⟨(0, 0, 0), 0⟩,
               name := "f", verts := vs } }

/-- An mdl model record with one frame and zero triangles. -/
def mdlNoTris : mdl.Model :=
  { header := { scale := (1, 1, 1), translate := (0, 0, 0), skin_width := 64,
                skin_height := 64, num_verices := 1 }
    texcoords := [⟨0, 0, 0⟩]
    triangles := []
    frames := [mdlFrame1 [⟨(5, 6, 7), 0⟩]] }

/-- The mdl seam scenario: position 0 is on the seam and used by one
front-facing and one back-facing triangle, skin 64 by 64. -/
def mdlSeamEx : mdl.Model :=
  { header := { scale := (1, 1, 1), translate := (0, 0, 0), skin_width := 64,
                skin_height := 64, num_verices := 2 }
    texcoords := [⟨1, 8, 4⟩, ⟨0, 2, 2⟩]
    triangles := [{ facefront := 1, vertex := (0, 0, 0) },
                  { facefront := 0, vertex := (0, 0, 0) }]
    frames := [mdlFrame1 [⟨(1, 2, 3), 0⟩, ⟨(4, 5, 6), 0⟩]] }

/-- An mdl model whose single front-facing triangle references position 0
three times, so slot 0 is assigned three times. -/
def mdlDup : mdl.Model :=
  { header := { scale := (1, 1, 1), translate := (0, 0, 0), skin_width := 64,
                skin_height := 64, num_verices := 1 }
    texcoords := [⟨0, 3, 4⟩]
    triangles := [{ facefront := 1, vertex := (0, 0, 0) }]
    frames := [mdlFrame1 [⟨(5, 6, 7), 0⟩]] }

/-- An mdl model whose seam duplications overflow the texcoord buffer:
one base vertex on the seam referenced three times by a back-facing
triangle needs four slots, one more than the preallocated three. -/
def mdlOvf : mdl.Model :=
  { header := { scale := (1, 1, 1), translate := (0, 0, 0), skin_width := 64,
                skin_height := 64, num_verices := 1 }
    texcoords := [⟨1, 0, 0⟩]
    triangles := [{ facefront := 0, vertex := (0, 0, 0) }]
    frames := [mdlFrame1 [⟨(5, 6, 7), 0⟩]] }

/-- The flattened mesh from_md2 returns on md2Ex. -/
def md2ExOut : FlatModel :=
  { vertices := [[(0, 0, 0), (1, 0, 0), (2, 0, 0), (3, 0, 0), (0, 0, 0)],
                 [(0, 0, 0), (0, 1, 0), (0, 2, 0), (0, 3, 0), (0, 0, 0)]]
    texcoords := [(0, 0), (1/4, 0), (1/4, 1/4), (0, 1/4), (1/2, 0)]
    indices := [(0, 1, 2), (4, 2, 3)] }

/-- The flattened mesh from_mdl returns on mdlSeamEx. -/
def mdlSeamOut : FlatModel :=
  { vertices := [[(1, 2, 3), (4, 5, 6), (1, 2, 3), (1, 2, 3), (1, 2, 3)]]
    texcoords := [(17/128, 9/128), (0, 0), (81/128, 9/128),
                  (81/128, 9/128), (81/128, 9/128)]
    indices := [(0, 0, 0), (2, 3, 4)] }

/-- The final loop state of the from_mdl corner loop on mdlSeamEx. -/
def mdlSeamSt : mdl.St :=
  { verts := [[(1, 2, 3), (4, 5, 6), (1, 2, 3), (1, 2, 3), (1, 2, 3)]]
    indices := [0, 0, 0, 2, 3, 4]
    tex := [(17/128, 9/128), (0, 0), (81/128, 9/128), (81/128, 9/128),
            (81/128, 9/128), (0, 0)]
    writes := [(0, (17/128, 9/128)), (0, (17/128, 9/128)),
               (0, (17/128, 9/128)), (2, (81/128, 9/128)),
               (3, (81/128, 9/128)), (4, (81/128, 9/128))] }

/-- A decoder header declaring one frame and nothing else. -/
def dHeaderFrames : mdlDec.DHeader :=
  { num_skins := 0, skin_width := 8, skin_height := 8, num_verices := 0,
    num_faces := 0, num_frames := 1 }

/-- A decoder header declaring one skin and nothing else. -/
def dHeaderSkins : mdlDec.DHeader :=
  { num_skins := 1, skin_width := 8, skin_height := 8, num_verices := 0,
    num_faces := 0, num_frames := 0 }

/-- Loop invariant of the from_md2 flattening, relating the state st to
the sequence cs of corners processed so far. -/
structure md2.Inv (m : md2.Model) (cs : List (Nat × Nat)) (st : md2.St) :
    Prop where
  frames_count : st.verts.length = (md2.decodedFrames m).length
  frames_len : ∀ f ∈ st.verts, f.length = md2.stLen st
  len_lb : md2.nVerts m ≤ md2.stLen st
  len_ub : md2.stLen st ≤ st.tex.length
  tex_len : st.tex.length = 2 * md2.nVerts m
  orig_take : ∀ k, (st.verts.getD k []).take (md2.nVerts m) =
    (md2.decodedFrames m).getD k []
  pairs_mem : ∀ p t, (alookup2 st.set p t).isSome = true ↔ (p, t) ∈ cs
  pos_mem : ∀ p, (alookup st.set p).isSome = true ↔ ∃ c ∈ cs, c.1 = p
  slots_lt : ∀ p t i, alookup2 st.set p t = some i → i < md2.stLen st
  slots_small : ∀ p t i, alookup2 st.set p t = some i →
    i < md2.nVerts m → i = p
  set_inj : ∀ p t1 t2 i1 i2, alookup2 st.set p t1 = some i1 →
    alookup2 st.set p t2 = some i2 → t1 ≠ t2 → i1 ≠ i2
  idx_len : st.indices.length = cs.length
  idx_spec : ∀ (j : Nat) (c : Nat × Nat), cs[j]? = some c →
    st.indices[j]? = alookup2 st.set c.1 c.2
  idx_lt : ∀ i ∈ st.indices, i < md2.stLen st
  wr_lt : ∀ wr ∈ st.writes, wr.1 < md2.stLen st
  wr_nodup : (st.writes.map Prod.fst).Nodup
  wr_seen : ∀ wr ∈ st.writes, wr.1 < md2.nVerts m →
    (alookup st.set wr.1).isSome = true

/-- The seam-slot subsequence of a write trace: the slots at or beyond
the original vertex count n, in write order. -/
def bigSlots (n : Nat) (ws : List (Nat × (ℚ × ℚ))) : List Nat :=
  ws.filterMap (fun wr => if n ≤ wr.1 then some wr.1 else none)

/-- Loop invariant of the from_mdl flattening. -/
structure mdl.Inv (m : mdl.Model) (st : mdl.St) : Prop where
  frames_count : st.verts.length = (mdl.decodedFrames m).length
  frames_len : ∀ f ∈ st.verts, f.length = mdl.stLen st
  len_lb : mdl.nVerts m ≤ mdl.stLen st
  len_ub : mdl.stLen st ≤ st.tex.length
  tex_len : st.tex.length = 3 * mdl.nVerts m
  orig_take : ∀ k, (st.verts.getD k []).take (mdl.nVerts m) =
    (mdl.decodedFrames m).getD k []
  idx_lt : ∀ i ∈ st.indices, i < mdl.stLen st
  wr_lt : ∀ wr ∈ st.writes, wr.1 < mdl.stLen st
  wr_small : ∀ wr ∈ st.writes, wr.1 < mdl.nVerts m →
    wr.2 = mdl.plainST m wr.1
  wr_big_stable : ∀ wr ∈ st.writes, mdl.nVerts m ≤ wr.1 →
    st.tex[wr.1]? = some wr.2
  wr_big_sorted : (bigSlots (mdl.nVerts m) st.writes).Pairwise (· < ·)

theorem alookup_cons {α : Type} (k : Nat) (v : α) (s : List (Nat × α))
    (key : Nat) :
    alookup ((k, v) :: s) key = if key = k then some v else alookup s key :=
  rfl

theorem alookup_aupdate_self (s : List (Nat × List (Nat × Nat)))
    (k tk tv : Nat) :
    alookup (aupdate s k tk tv) k =
      (alookup s k).map (fun sub => (tk, tv) :: sub) := by
  induction s with
  | nil => rfl
  | cons e rest ih =>
    obtain ⟨k0, v0⟩ := e
    have hmap : aupdate ((k0, v0) :: rest) k tk tv =
        (if k0 = k then (k0, (tk, tv) :: v0) else (k0, v0)) ::
          aupdate rest k tk tv := by
      simp [aupdate]
    rw [hmap]
    by_cases h : k0 = k
    · rw [if_pos h, alookup_cons, if_pos h.symm, alookup_cons, if_pos h.symm]
      rfl
    · have h2 : ¬ k = k0 := fun hk => h hk.symm
      rw [if_neg h, alookup_cons, if_neg h2, alookup_cons, if_neg h2]
      exact ih

theorem alookup_aupdate_ne (s : List (Nat × List (Nat × Nat)))
    (k tk tv p : Nat) (h : p ≠ k) :
    alookup (aupdate s k tk tv) p = alookup s p := by
  induction s with
  | nil => rfl
  | cons e rest ih =>
    obtain ⟨k0, v0⟩ := e
    have hmap : aupdate ((k0, v0) :: rest) k tk tv =
        (if k0 = k then (k0, (tk, tv) :: v0) else (k0, v0)) ::
          aupdate rest k tk tv := by
      simp [aupdate]
    rw [hmap]
    by_cases he : k0 = k
    · have h2 : ¬ p = k0 := fun hp => h (hp.trans he)
      rw [if_pos he, alookup_cons, if_neg h2, alookup_cons, if_neg h2]
      exact ih
    · by_cases hp : p = k0
      · rw [if_neg he, alookup_cons, if_pos hp, alookup_cons, if_pos hp]
      · rw [if_neg he, alookup_cons, if_neg hp, alookup_cons, if_neg hp]
        exact ih

theorem alookup2_cons (p0 t0 v0 : Nat) (s : List (Nat × List (Nat × Nat)))
    (p t : Nat) :
    alookup2 ((p0, [(t0, v0)]) :: s) p t =
      if p = p0 then (if t = t0 then some v0 else none)
      else alookup2 s p t := by
  by_cases h : p = p0
  · simp [alookup2, alookup, h]
  · simp [alookup2, alookup, h]

theorem alookup2_aupdate (s : List (Nat × List (Nat × Nat)))
    (k tk tv : Nat) (sub : List (Nat × Nat))
    (hk : alookup s k = some sub) (p t : Nat) :
    alookup2 (aupdate s k tk tv) p t =
      if p = k then (if t = tk then some tv else alookup2 s p t)
      else alookup2 s p t := by
  by_cases h : p = k
  · subst h
    rw [if_pos rfl]
    unfold alookup2
    rw [alookup_aupdate_self, hk]
    by_cases ht : t = tk
    · simp [alookup, ht]
    · simp [alookup, ht]
  · rw [if_neg h]
    unfold alookup2
    rw [alookup_aupdate_ne s k tk tv p h]

theorem group3_mem :
    ∀ (l : List Nat), ∀ tr ∈ group3 l, tr.1 ∈ l ∧ tr.2.1 ∈ l ∧ tr.2.2 ∈ l
  | [], tr, htr => by simp [group3] at htr
  | [_], tr, htr => by simp [group3] at htr
  | [_, _], tr, htr => by simp [group3] at htr
  | a :: b :: c :: rest, tr, htr => by
    simp only [group3, List.mem_cons] at htr
    rcases htr with h | h
    · subst h; simp
    · have := group3_mem rest tr h
      simp only [List.mem_cons]
      exact ⟨Or.inr (Or.inr (Or.inr this.1)),
             Or.inr (Or.inr (Or.inr this.2.1)),
             Or.inr (Or.inr (Or.inr this.2.2))⟩

namespace md2

theorem runCorners_append (m : Model) (w h : ℚ) (l1 l2 : List (Nat × Nat)) :
    ∀ st, runCorners m w h st (l1 ++ l2) =
      (runCorners m w h st l1).bind (fun s => runCorners m w h s l2) := by
  induction l1 with
  | nil => intro st; simp [runCorners]
  | cons c rest ih =>
    intro st
    simp only [List.cons_append, runCorners]
    cases cornerStep m w h st c with
    | none => simp
    | some st2 => simpa using ih st2

theorem runCorners_single (m : Model) (w h : ℚ) (st : St) (c : Nat × Nat) :
    runCorners m w h st [c] = cornerStep m w h st c := by
  unfold runCorners
  cases cornerStep m w h st c <;> rfl

theorem runOn_succ (m : Model) (k : Nat) (c : Nat × Nat)
    (hc : (cornersOf m.faces)[k]? = some c) :
    runOn m (k + 1) = (runOn m k).bind
      (fun s => cornerStep m (m.header.skin_width : ℚ)
        (m.header.skin_height : ℚ) s c) := by
  unfold runOn
  cases hF : (decodedFrames m).head? with
  | none => simp
  | some f0 =>
    simp only []
    rw [List.take_succ, hc, show (some c).toList = [c] from rfl]
    rw [runCorners_append m _ _ _ [c] (initSt m f0)]
    simp only [runCorners_single]

theorem run_eq_runOn (m : Model) (k : Nat)
    (hk : (cornersOf m.faces).length ≤ k) :
    run m = runOn m k := by
  unfold run runOn
  rw [List.take_of_length_le hk]

end md2

namespace mdl

theorem runCorners_appendM (m : Model) (l1 l2 : List (Bool × Nat)) :
    ∀ st, runCorners m st (l1 ++ l2) =
      (runCorners m st l1).bind (fun s => runCorners m s l2) := by
  induction l1 with
  | nil => intro st; simp [runCorners]
  | cons c rest ih =>
    intro st
    simp only [List.cons_append, runCorners]
    cases cornerStep m st c with
    | none => simp
    | some st2 => simpa using ih st2

end mdl

namespace md2

theorem cornerStep_some (m : Model) (w h : ℚ) (st st2 : St) (c : Nat × Nat)
    (hs : cornerStep m w h st c = some st2) :
    ∃ tc, m.texcoords.get? c.2 = some tc ∧
      ((alookup st.set c.1 = none ∧ c.1 < st.tex.length ∧
          st2 = ⟨st.verts, (c.1, [(c.2, c.1)]) :: st.set,
                st.indices ++ [c.1],
                st.tex.set c.1 ((tc.s : ℚ) / w, (tc.t : ℚ) / h),
                st.writes ++ [(c.1, ((tc.s : ℚ) / w, (tc.t : ℚ) / h))]⟩) ∨
       (∃ sub i, alookup st.set c.1 = some sub ∧ alookup sub c.2 = some i ∧
          st2 = ⟨st.verts, st.set, st.indices ++ [i], st.tex, st.writes⟩) ∨
       (∃ sub, alookup st.set c.1 = some sub ∧ alookup sub c.2 = none ∧
          (∀ f ∈ st.verts, c.1 < f.length) ∧ st.verts ≠ [] ∧
          stLen st < st.tex.length ∧
          st2 = ⟨st.verts.map (fun f => f ++ [f.getD c.1 (0, 0, 0)]),
                aupdate st.set c.1 c.2 (stLen st),
                st.indices ++ [stLen st],
                st.tex.set (stLen st) ((tc.s : ℚ) / w, (tc.t : ℚ) / h),
                st.writes ++ [(stLen st, ((tc.s : ℚ) / w, (tc.t : ℚ) / h))]⟩)) := by
  unfold cornerStep at hs
  split at hs
  · exact absurd hs (by simp)
  next tc htc =>
    refine ⟨tc, htc, ?_⟩
    split at hs
    next hnone =>
      split at hs
      next hlt =>
        exact Or.inl ⟨hnone, hlt, (Option.some.inj hs).symm⟩
      · exact absurd hs (by simp)
    next sub hsub =>
      split at hs
      next i hi =>
        exact Or.inr (Or.inl ⟨sub, i, hsub, hi, (Option.some.inj hs).symm⟩)
      next hi =>
        refine Or.inr (Or.inr ?_)
        split at hs
        next hall =>
          split at hs
          · exact absurd hs (by simp)
          next f0 hf0 =>
            split at hs
            next hlt2 =>
              have hne : st.verts ≠ [] := by
                intro hnil
                rw [hnil] at hf0
                simp at hf0
              rw [List.head?_map] at hf0
              have hstep : ∃ f, st.verts.head? = some f ∧
                  f0 = f ++ [f.getD c.1 (0, 0, 0)] := by
                cases hh : st.verts.head? with
                | none => rw [hh] at hf0; simp at hf0
                | some f =>
                  rw [hh] at hf0
                  exact ⟨f, rfl, (Option.some.inj hf0).symm⟩
              obtain ⟨f, hf, hf0eq⟩ := hstep
              have hlen : f0.length - 1 = stLen st := by
                simp [hf0eq, stLen, hf]
              rw [hlen] at hs hlt2
              exact ⟨sub, hsub, hi, hall, hne, hlt2, (Option.some.inj hs).symm⟩
            · exact absurd hs (by simp)
        · exact absurd hs (by simp)

end md2

namespace md2

theorem inv_case1 (m : Model) (cs : List (Nat × Nat)) (cp ct : Nat)
    (st : St) (sv : ℚ × ℚ) (hc1 : cp < nVerts m)
    (hI : Inv m cs st) (hnone : alookup st.set cp = none)
    (hlt : cp < st.tex.length) :
    Inv m (cs ++ [(cp, ct)])
      ⟨st.verts, (cp, [(ct, cp)]) :: st.set, st.indices ++ [cp],
       st.tex.set cp sv, st.writes ++ [(cp, sv)]⟩ := by
  have hpos_new : ∀ t, ¬ (cp, t) ∈ cs := by
    intro t hmem
    have := (hI.pos_mem cp).mpr ⟨(cp, t), hmem, rfl⟩
    rw [hnone] at this
    simp at this
  have hLen : stLen ⟨st.verts, (cp, [(ct, cp)]) :: st.set,
      st.indices ++ [cp], st.tex.set cp sv,
      st.writes ++ [(cp, sv)]⟩ = stLen st := rfl
  constructor
  case frames_count => exact hI.frames_count
  case frames_len => exact hI.frames_len
  case len_lb => exact hI.len_lb
  case len_ub =>
    show stLen st ≤ (st.tex.set cp sv).length
    rw [List.length_set]
    exact hI.len_ub
  case tex_len =>
    show (st.tex.set cp sv).length = 2 * nVerts m
    rw [List.length_set]
    exact hI.tex_len
  case orig_take => exact hI.orig_take
  case pairs_mem =>
    intro p t
    show (alookup2 ((cp, [(ct, cp)]) :: st.set) p t).isSome = true ↔ _
    rw [alookup2_cons]
    by_cases hp : p = cp
    · subst hp
      by_cases ht : t = ct
      · subst ht
        simp
      · rw [if_pos rfl, if_neg ht]
        simp only [Option.isSome_none, Bool.false_eq_true, false_iff]
        intro hmem
        rcases List.mem_append.mp hmem with hl | hr
        · exact hpos_new t hl
        · simp only [List.mem_singleton, Prod.mk.injEq] at hr
          exact ht hr.2
    · rw [if_neg hp, hI.pairs_mem p t]
      constructor
      · exact fun hmem => List.mem_append_left _ hmem
      · intro hmem
        rcases List.mem_append.mp hmem with hl | hr
        · exact hl
        · simp only [List.mem_singleton, Prod.mk.injEq] at hr
          exact absurd hr.1 hp
  case pos_mem =>
    intro p
    show (alookup ((cp, [(ct, cp)]) :: st.set) p).isSome = true ↔ _
    rw [alookup_cons]
    by_cases hp : p = cp
    · subst hp
      rw [if_pos rfl]
      simp only [Option.isSome_some, true_iff]
      exact ⟨(p, ct), List.mem_append_right _ (by simp), rfl⟩
    · rw [if_neg hp, hI.pos_mem p]
      constructor
      · rintro ⟨c0, hc0, hfst⟩
        exact ⟨c0, List.mem_append_left _ hc0, hfst⟩
      · rintro ⟨c0, hc0, hfst⟩
        rcases List.mem_append.mp hc0 with hl | hr
        · exact ⟨c0, hl, hfst⟩
        · simp only [List.mem_singleton] at hr
          subst hr
          exact absurd (show p = cp from hfst.symm) hp
  case slots_lt =>
    intro p t i hlook
    rw [hLen]
    rw [show (⟨st.verts, (cp, [(ct, cp)]) :: st.set, st.indices ++ [cp],
          st.tex.set cp sv, st.writes ++ [(cp, sv)]⟩ : St).set =
        (cp, [(ct, cp)]) :: st.set from rfl, alookup2_cons] at hlook
    by_cases hp : p = cp
    · rw [if_pos hp] at hlook
      by_cases ht : t = ct
      · rw [if_pos ht] at hlook
        cases hlook
        exact lt_of_lt_of_le hc1 hI.len_lb
      · rw [if_neg ht] at hlook
        cases hlook
    · rw [if_neg hp] at hlook
      exact hI.slots_lt p t i hlook
  case slots_small =>
    intro p t i hlook hsmall
    rw [show (⟨st.verts, (cp, [(ct, cp)]) :: st.set, st.indices ++ [cp],
          st.tex.set cp sv, st.writes ++ [(cp, sv)]⟩ : St).set =
        (cp, [(ct, cp)]) :: st.set from rfl, alookup2_cons] at hlook
    by_cases hp : p = cp
    · rw [if_pos hp] at hlook
      by_cases ht : t = ct
      · rw [if_pos ht] at hlook
        cases hlook
        exact hp.symm
      · rw [if_neg ht] at hlook
        cases hlook
    · rw [if_neg hp] at hlook
      exact hI.slots_small p t i hlook hsmall
  case set_inj =>
    intro p t1 t2 i1 i2 h1 h2 hne
    rw [show (⟨st.verts, (cp, [(ct, cp)]) :: st.set, st.indices ++ [cp],
          st.tex.set cp sv, st.writes ++ [(cp, sv)]⟩ : St).set =
        (cp, [(ct, cp)]) :: st.set from rfl, alookup2_cons] at h1 h2
    by_cases hp : p = cp
    · rw [if_pos hp] at h1 h2
      by_cases ht1 : t1 = ct
      · rw [if_pos ht1] at h1
        by_cases ht2 : t2 = ct
        · exact absurd (ht1.trans ht2.symm) hne
        · rw [if_neg ht2] at h2
          cases h2
      · rw [if_neg ht1] at h1
        cases h1
    · rw [if_neg hp] at h1 h2
      exact hI.set_inj p t1 t2 i1 i2 h1 h2 hne
  case idx_len =>
    show (st.indices ++ [cp]).length = (cs ++ [(cp, ct)]).length
    simp [hI.idx_len]
  case idx_spec =>
    intro j c0 hj
    show (st.indices ++ [cp])[j]? = alookup2 ((cp, [(ct, cp)]) :: st.set) c0.1 c0.2
    rcases Nat.lt_trichotomy j cs.length with hlt2 | heq | hgt
    · rw [List.getElem?_append_left hlt2] at hj
      rw [List.getElem?_append_left (by rw [hI.idx_len]; exact hlt2)]
      rw [hI.idx_spec j c0 hj, alookup2_cons]
      have hc0 : c0 ∈ cs := List.getElem?_mem hj
      by_cases hp : c0.1 = cp
      · exact absurd (hp ▸ hc0) (hpos_new c0.2)
      · rw [if_neg hp]
    · subst heq
      rw [List.getElem?_concat_length] at hj
      cases hj
      rw [← hI.idx_len, List.getElem?_concat_length, alookup2_cons,
        if_pos rfl, if_pos rfl]
    · rw [List.getElem?_eq_none (by simp; omega)] at hj
      cases hj
  case idx_lt =>
    intro i hi
    rw [hLen]
    rcases List.mem_append.mp hi with hl | hr
    · exact hI.idx_lt i hl
    · simp only [List.mem_singleton] at hr
      subst hr
      exact lt_of_lt_of_le hc1 hI.len_lb
  case wr_lt =>
    intro wr hwr
    rw [hLen]
    rcases List.mem_append.mp hwr with hl | hr
    · exact hI.wr_lt wr hl
    · simp only [List.mem_singleton] at hr
      subst hr
      exact lt_of_lt_of_le hc1 hI.len_lb
  case wr_nodup =>
    show ((st.writes ++ [(cp, sv)]).map Prod.fst).Nodup
    rw [List.map_append]
    simp only [List.map_cons, List.map_nil]
    rw [List.nodup_append]
    refine ⟨hI.wr_nodup, List.nodup_singleton cp, ?_⟩
    intro a ha hb
    simp only [List.mem_singleton] at hb
    subst hb
    rcases List.mem_map.mp ha with ⟨wr, hwr, hfst⟩
    have := hI.wr_seen wr hwr (by rw [hfst]; exact hc1)
    rw [hfst, hnone] at this
    simp at this
  case wr_seen =>
    intro wr hwr hsmall
    show (alookup ((cp, [(ct, cp)]) :: st.set) wr.1).isSome = true
    rw [alookup_cons]
    by_cases hp : wr.1 = cp
    · rw [if_pos hp]; rfl
    · rw [if_neg hp]
      rcases List.mem_append.mp hwr with hl | hr
      · exact hI.wr_seen wr hl hsmall
      · simp only [List.mem_singleton] at hr
        subst hr
        exact absurd rfl hp

end md2

namespace md2

theorem stLen_map_push (l : List (List Vec3)) (g : List Vec3 → Vec3)
    (hl : l ≠ []) :
    ((l.map (fun f => f ++ [g f])).headD []).length =
      (l.headD []).length + 1 := by
  cases l with
  | nil => exact absurd rfl hl
  | cons a r => simp

theorem inv_case2 (m : Model) (cs : List (Nat × Nat)) (cp ct : Nat)
    (st : St) (sub : List (Nat × Nat)) (i : Nat)
    (hI : Inv m cs st) (hsub : alookup st.set cp = some sub)
    (hi : alookup sub ct = some i) :
    Inv m (cs ++ [(cp, ct)])
      ⟨st.verts, st.set, st.indices ++ [i], st.tex, st.writes⟩ := by
  have hlook : alookup2 st.set cp ct = some i := by
    unfold alookup2
    rw [hsub]
    exact hi
  constructor
  case frames_count => exact hI.frames_count
  case frames_len => exact hI.frames_len
  case len_lb => exact hI.len_lb
  case len_ub => exact hI.len_ub
  case tex_len => exact hI.tex_len
  case orig_take => exact hI.orig_take
  case pairs_mem =>
    intro p t
    show (alookup2 st.set p t).isSome = true ↔ _
    constructor
    · intro hmem
      exact List.mem_append_left _ ((hI.pairs_mem p t).mp hmem)
    · intro hmem
      rcases List.mem_append.mp hmem with hl | hr
      · exact (hI.pairs_mem p t).mpr hl
      · simp only [List.mem_singleton, Prod.mk.injEq] at hr
        rw [hr.1, hr.2, hlook]
        rfl
  case pos_mem =>
    intro p
    show (alookup st.set p).isSome = true ↔ _
    constructor
    · intro hmem
      obtain ⟨c0, hc0, hfst⟩ := (hI.pos_mem p).mp hmem
      exact ⟨c0, List.mem_append_left _ hc0, hfst⟩
    · rintro ⟨c0, hc0, hfst⟩
      rcases List.mem_append.mp hc0 with hl | hr
      · exact (hI.pos_mem p).mpr ⟨c0, hl, hfst⟩
      · simp only [List.mem_singleton] at hr
        subst hr
        rw [← hfst, hsub]
        rfl
  case slots_lt => exact hI.slots_lt
  case slots_small => exact hI.slots_small
  case set_inj => exact hI.set_inj
  case idx_len =>
    show (st.indices ++ [i]).length = (cs ++ [(cp, ct)]).length
    simp [hI.idx_len]
  case idx_spec =>
    intro j c0 hj
    show (st.indices ++ [i])[j]? = alookup2 st.set c0.1 c0.2
    rcases Nat.lt_trichotomy j cs.length with hlt2 | heq | hgt
    · rw [List.getElem?_append_left hlt2] at hj
      rw [List.getElem?_append_left (by rw [hI.idx_len]; exact hlt2)]
      exact hI.idx_spec j c0 hj
    · subst heq
      rw [List.getElem?_concat_length] at hj
      cases hj
      rw [← hI.idx_len, List.getElem?_concat_length, hlook]
    · rw [List.getElem?_eq_none (by simp; omega)] at hj
      cases hj
  case idx_lt =>
    intro i0 hi0
    show i0 < stLen st
    rcases List.mem_append.mp hi0 with hl | hr
    · exact hI.idx_lt i0 hl
    · simp only [List.mem_singleton] at hr
      subst hr
      exact hI.slots_lt cp ct i0 hlook
  case wr_lt => exact hI.wr_lt
  case wr_nodup => exact hI.wr_nodup
  case wr_seen => exact hI.wr_seen

theorem inv_case3 (m : Model) (cs : List (Nat × Nat)) (cp ct : Nat)
    (st : St) (sub : List (Nat × Nat)) (sv : ℚ × ℚ)
    (hc1 : cp < nVerts m)
    (hI : Inv m cs st) (hsub : alookup st.set cp = some sub)
    (hct : alookup sub ct = none)
    (hne : st.verts ≠ []) (hlen : stLen st < st.tex.length) :
    Inv m (cs ++ [(cp, ct)])
      ⟨st.verts.map (fun f => f ++ [f.getD cp (0, 0, 0)]),
       aupdate st.set cp ct (stLen st),
       st.indices ++ [stLen st],
       st.tex.set (stLen st) sv,
       st.writes ++ [(stLen st, sv)]⟩ := by
  have hpair_old : alookup2 st.set cp ct = none := by
    unfold alookup2
    rw [hsub]
    exact hct
  have hup := alookup2_aupdate st.set cp ct (stLen st) sub hsub
  have hLen : stLen ⟨st.verts.map (fun f => f ++ [f.getD cp (0, 0, 0)]),
      aupdate st.set cp ct (stLen st), st.indices ++ [stLen st],
      st.tex.set (stLen st) sv, st.writes ++ [(stLen st, sv)]⟩ =
      stLen st + 1 := by
    show ((st.verts.map (fun f => f ++ [f.getD cp (0, 0, 0)])).headD
      []).length = stLen st + 1
    exact stLen_map_push st.verts (fun f => f.getD cp (0, 0, 0)) hne
  constructor
  case frames_count =>
    show (st.verts.map (fun f => f ++ [f.getD cp (0, 0, 0)])).length = _
    rw [List.length_map]
    exact hI.frames_count
  case frames_len =>
    intro f hf
    rw [hLen]
    rcases List.mem_map.mp hf with ⟨f0, hf0, rfl⟩
    simp only [List.length_append, List.length_cons, List.length_nil]
    rw [hI.frames_len f0 hf0]
  case len_lb =>
    rw [hLen]
    exact le_trans hI.len_lb (Nat.le_succ _)
  case len_ub =>
    rw [hLen]
    show stLen st + 1 ≤ (st.tex.set (stLen st) sv).length
    rw [List.length_set]
    omega
  case tex_len =>
    show (st.tex.set (stLen st) sv).length = 2 * nVerts m
    rw [List.length_set]
    exact hI.tex_len
  case orig_take =>
    intro k
    show ((st.verts.map (fun f => f ++ [f.getD cp (0, 0, 0)])).getD k
      []).take (nVerts m) = _
    rw [List.getD_eq_getElem?_getD, List.getElem?_map]
    cases hk : st.verts[k]? with
    | none =>
      have hold := hI.orig_take k
      rw [List.getD_eq_getElem?_getD, hk] at hold
      simp only [Option.getD_none, List.take_nil] at hold
      simp only [Option.map_none', Option.getD_none, List.take_nil]
      exact hold
    | some f =>
      have hold := hI.orig_take k
      rw [List.getD_eq_getElem?_getD, hk] at hold
      simp only [Option.getD_some] at hold
      simp only [Option.map_some', Option.getD_some]
      rw [List.take_append_of_le_length, hold]
      rw [hI.frames_len f (List.getElem?_mem hk)]
      exact hI.len_lb
  case pairs_mem =>
    intro p t
    show (alookup2 (aupdate st.set cp ct (stLen st)) p t).isSome = true ↔ _
    rw [hup]
    by_cases hp : p = cp
    · subst hp
      by_cases ht : t = ct
      · subst ht
        rw [if_pos rfl, if_pos rfl]
        simp
      · rw [if_pos rfl, if_neg ht, hI.pairs_mem p t]
        constructor
        · exact fun hmem => List.mem_append_left _ hmem
        · intro hmem
          rcases List.mem_append.mp hmem with hl | hr
          · exact hl
          · simp only [List.mem_singleton, Prod.mk.injEq] at hr
            exact absurd hr.2 ht
    · rw [if_neg hp, hI.pairs_mem p t]
      constructor
      · exact fun hmem => List.mem_append_left _ hmem
      · intro hmem
        rcases List.mem_append.mp hmem with hl | hr
        · exact hl
        · simp only [List.mem_singleton, Prod.mk.injEq] at hr
          exact absurd hr.1 hp
  case pos_mem =>
    intro p
    show (alookup (aupdate st.set cp ct (stLen st)) p).isSome = true ↔ _
    by_cases hp : p = cp
    · subst hp
      rw [alookup_aupdate_self, hsub]
      simp only [Option.map_some', Option.isSome_some, true_iff]
      exact ⟨(p, ct), List.mem_append_right _ (by simp), rfl⟩
    · rw [alookup_aupdate_ne st.set cp ct (stLen st) p hp, hI.pos_mem p]
      constructor
      · rintro ⟨c0, hc0, hfst⟩
        exact ⟨c0, List.mem_append_left _ hc0, hfst⟩
      · rintro ⟨c0, hc0, hfst⟩
        rcases List.mem_append.mp hc0 with hl | hr
        · exact ⟨c0, hl, hfst⟩
        · simp only [List.mem_singleton] at hr
          subst hr
          exact absurd (show p = cp from hfst.symm) hp
  case slots_lt =>
    intro p t i hlook
    rw [hLen]
    rw [show (⟨st.verts.map (fun f => f ++ [f.getD cp (0, 0, 0)]),
          aupdate st.set cp ct (stLen st), st.indices ++ [stLen st],
          st.tex.set (stLen st) sv, st.writes ++ [(stLen st, sv)]⟩ : St).set =
        aupdate st.set cp ct (stLen st) from rfl, hup] at hlook
    by_cases hp : p = cp
    · rw [if_pos hp] at hlook
      by_cases ht : t = ct
      · rw [if_pos ht] at hlook
        cases hlook
        omega
      · rw [if_neg ht] at hlook
        exact Nat.lt_succ_of_lt (hI.slots_lt p t i hlook)
    · rw [if_neg hp] at hlook
      exact Nat.lt_succ_of_lt (hI.slots_lt p t i hlook)
  case slots_small =>
    intro p t i hlook hsmall
    rw [show (⟨st.verts.map (fun f => f ++ [f.getD cp (0, 0, 0)]),
          aupdate st.set cp ct (stLen st), st.indices ++ [stLen st],
          st.tex.set (stLen st) sv, st.writes ++ [(stLen st, sv)]⟩ : St).set =
        aupdate st.set cp ct (stLen st) from rfl, hup] at hlook
    by_cases hp : p = cp
    · rw [if_pos hp] at hlook
      by_cases ht : t = ct
      · rw [if_pos ht] at hlook
        cases hlook
        exact absurd (lt_of_le_of_lt hI.len_lb hsmall) (lt_irrefl _)
      · rw [if_neg ht] at hlook
        exact hI.slots_small p t i hlook hsmall
    · rw [if_neg hp] at hlook
      exact hI.slots_small p t i hlook hsmall
  case set_inj =>
    intro p t1 t2 i1 i2 h1 h2 hne2
    rw [show (⟨st.verts.map (fun f => f ++ [f.getD cp (0, 0, 0)]),
          aupdate st.set cp ct (stLen st), st.indices ++ [stLen st],
          st.tex.set (stLen st) sv, st.writes ++ [(stLen st, sv)]⟩ : St).set =
        aupdate st.set cp ct (stLen st) from rfl, hup] at h1 h2
    by_cases hp : p = cp
    · rw [if_pos hp] at h1 h2
      by_cases ht1 : t1 = ct
      · rw [if_pos ht1] at h1
        cases h1
        by_cases ht2 : t2 = ct
        · exact absurd (ht1.trans ht2.symm) hne2
        · rw [if_neg ht2] at h2
          have := hI.slots_lt p t2 i2 h2
          omega
      · rw [if_neg ht1] at h1
        by_cases ht2 : t2 = ct
        · rw [if_pos ht2] at h2
          cases h2
          have := hI.slots_lt p t1 i1 h1
          omega
        · rw [if_neg ht2] at h2
          exact hI.set_inj p t1 t2 i1 i2 h1 h2 hne2
    · rw [if_neg hp] at h1 h2
      exact hI.set_inj p t1 t2 i1 i2 h1 h2 hne2
  case idx_len =>
    show (st.indices ++ [stLen st]).length = (cs ++ [(cp, ct)]).length
    simp [hI.idx_len]
  case idx_spec =>
    intro j c0 hj
    show (st.indices ++ [stLen st])[j]? =
      alookup2 (aupdate st.set cp ct (stLen st)) c0.1 c0.2
    rw [hup]
    rcases Nat.lt_trichotomy j cs.length with hlt2 | heq | hgt
    · rw [List.getElem?_append_left hlt2] at hj
      rw [List.getElem?_append_left (by rw [hI.idx_len]; exact hlt2)]
      rw [hI.idx_spec j c0 hj]
      have hc0 : c0 ∈ cs := List.getElem?_mem hj
      by_cases hp : c0.1 = cp
      · by_cases ht : c0.2 = ct
        · have : (cp, ct) ∈ cs := by
            rw [← hp, ← ht]
            simpa using hc0
          have := (hI.pairs_mem cp ct).mpr this
          rw [hpair_old] at this
          simp at this
        · rw [if_pos hp, if_neg ht]
      · rw [if_neg hp]
    · subst heq
      rw [List.getElem?_concat_length] at hj
      cases hj
      rw [← hI.idx_len, List.getElem?_concat_length, if_pos rfl, if_pos rfl]
    · rw [List.getElem?_eq_none (by simp; omega)] at hj
      cases hj
  case idx_lt =>
    intro i hi
    rw [hLen]
    rcases List.mem_append.mp hi with hl | hr
    · exact Nat.lt_succ_of_lt (hI.idx_lt i hl)
    · simp only [List.mem_singleton] at hr
      subst hr
      exact Nat.lt_succ_self _
  case wr_lt =>
    intro wr hwr
    rw [hLen]
    rcases List.mem_append.mp hwr with hl | hr
    · exact Nat.lt_succ_of_lt (hI.wr_lt wr hl)
    · simp only [List.mem_singleton] at hr
      subst hr
      exact Nat.lt_succ_self _
  case wr_nodup =>
    show ((st.writes ++ [(stLen st, sv)]).map Prod.fst).Nodup
    rw [List.map_append]
    simp only [List.map_cons, List.map_nil]
    rw [List.nodup_append]
    refine ⟨hI.wr_nodup, List.nodup_singleton _, ?_⟩
    intro a ha hb
    simp only [List.mem_singleton] at hb
    subst hb
    rcases List.mem_map.mp ha with ⟨wr, hwr, hfst⟩
    have := hI.wr_lt wr hwr
    omega
  case wr_seen =>
    intro wr hwr hsmall
    show (alookup (aupdate st.set cp ct (stLen st)) wr.1).isSome = true
    rcases List.mem_append.mp hwr with hl | hr
    · by_cases hp : wr.1 = cp
      · rw [hp, alookup_aupdate_self, hsub]
        rfl
      · rw [alookup_aupdate_ne st.set cp ct (stLen st) wr.1 hp]
        exact hI.wr_seen wr hl hsmall
    · simp only [List.mem_singleton] at hr
      subst hr
      exact absurd (lt_of_le_of_lt hI.len_lb hsmall) (lt_irrefl _)

end md2

namespace md2

theorem inv_step (m : Model) (w h : ℚ) (cs : List (Nat × Nat))
    (c : Nat × Nat) (st st2 : St) (hc1 : c.1 < nVerts m)
    (hI : Inv m cs st) (hs : cornerStep m w h st c = some st2) :
    Inv m (cs ++ [c]) st2 := by
  obtain ⟨cp, ct⟩ := c
  obtain ⟨tc, htc, hcase⟩ := cornerStep_some m w h st st2 (cp, ct) hs
  rcases hcase with ⟨hnone, hlt, rfl⟩ | ⟨sub, i, hsub, hi, rfl⟩ |
    ⟨sub, hsub, hi, hall, hne, hlen, rfl⟩
  · exact inv_case1 m cs cp ct st _ hc1 hI hnone hlt
  · exact inv_case2 m cs cp ct st sub i hI hsub hi
  · exact inv_case3 m cs cp ct st sub _ hc1 hI hsub hi hne hlen

theorem inv_run (m : Model) (w h : ℚ) :
    ∀ (cs2 cs1 : List (Nat × Nat)) (st stF : St),
    (∀ c ∈ cs2, c.1 < nVerts m) → Inv m cs1 st →
    runCorners m w h st cs2 = some stF → Inv m (cs1 ++ cs2) stF
  | [], cs1, st, stF, hv, hI, hr => by
    unfold runCorners at hr
    cases hr
    simpa using hI
  | c :: rest, cs1, st, stF, hv, hI, hr => by
    unfold runCorners at hr
    cases hstep : cornerStep m w h st c with
    | none => rw [hstep] at hr; cases hr
    | some st2 =>
      rw [hstep] at hr
      have h2 := inv_run m w h rest (cs1 ++ [c]) st2 stF
        (fun c0 hc0 => hv c0 (List.mem_cons_of_mem _ hc0))
        (inv_step m w h cs1 c st st2 (hv c (List.mem_cons_self _ _)) hI
          hstep) hr
      simpa using h2

theorem cornersOf_spec :
    ∀ (fs : List Triangle) (P : Nat → Prop) (Q : Nat → Prop),
    (∀ f ∈ fs, (P f.vertex.1 ∧ P f.vertex.2.1 ∧ P f.vertex.2.2) ∧
      (Q f.st_idx.1 ∧ Q f.st_idx.2.1 ∧ Q f.st_idx.2.2)) →
    ∀ c ∈ cornersOf fs, P c.1 ∧ Q c.2
  | [], _, _, _, c, hc => by simp [cornersOf] at hc
  | f :: rest, P, Q, hf, c, hc => by
    simp only [cornersOf, List.mem_cons] at hc
    have hfst := hf f (List.mem_cons_self _ _)
    rcases hc with rfl | rfl | rfl | hc
    · exact ⟨hfst.1.1, hfst.2.1⟩
    · exact ⟨hfst.1.2.1, hfst.2.2.1⟩
    · exact ⟨hfst.1.2.2, hfst.2.2.2⟩
    · exact cornersOf_spec rest P Q
        (fun g hg => hf g (List.mem_cons_of_mem _ hg)) c hc

theorem cornersOf_valid (m : Model) (hv : Valid m) :
    ∀ c ∈ cornersOf m.faces, c.1 < nVerts m ∧ c.2 < m.texcoords.length :=
  cornersOf_spec m.faces (fun p => p < nVerts m)
    (fun t => t < m.texcoords.length) hv.2.2

theorem decodedFrames_head (m : Model) (f0 : List Vec3)
    (hf : (decodedFrames m).head? = some f0) (hv : Valid m) :
    f0.length = nVerts m := by
  cases hfr : m.frames with
  | nil =>
    unfold decodedFrames at hf
    rw [hfr] at hf
    simp at hf
  | cons fr rest =>
    unfold decodedFrames at hf
    rw [hfr] at hf
    simp only [List.map_cons, List.head?_cons, Option.some.injEq] at hf
    rw [← hf]
    simp only [List.length_map]
    exact hv.2.1 fr (by rw [hfr]; exact List.mem_cons_self _ _)

theorem inv_init (m : Model) (f0 : List Vec3) (hv : Valid m)
    (hf : (decodedFrames m).head? = some f0) :
    Inv m [] (initSt m f0) := by
  have hn : f0.length = nVerts m := decodedFrames_head m f0 hf hv
  have hD : (decodedFrames m).headD [] = f0 := by
    cases hd : decodedFrames m with
    | nil => rw [hd] at hf; simp at hf
    | cons a r =>
      rw [hd] at hf
      simp only [List.head?_cons, Option.some.injEq] at hf
      rw [List.headD_cons, hf]
  have hlen_all : ∀ f ∈ decodedFrames m, f.length = nVerts m := by
    intro f hmem
    unfold decodedFrames at hmem
    rcases List.mem_map.mp hmem with ⟨fr, hfr, rfl⟩
    simp only [List.length_map]
    exact hv.2.1 fr hfr
  have hstl : stLen (initSt m f0) = nVerts m := by
    show ((decodedFrames m).headD []).length = nVerts m
    rw [hD, hn]
  constructor
  case frames_count => rfl
  case frames_len =>
    intro f hmem
    rw [hstl]
    exact hlen_all f hmem
  case len_lb => rw [hstl]
  case len_ub =>
    rw [hstl]
    show nVerts m ≤ (List.replicate (f0.length * 2) ((0 : ℚ), (0 : ℚ))).length
    rw [List.length_replicate, hn]
    omega
  case tex_len =>
    show (List.replicate (f0.length * 2) ((0 : ℚ), (0 : ℚ))).length = _
    rw [List.length_replicate, hn]
    omega
  case orig_take =>
    intro k
    show ((decodedFrames m).getD k []).take (nVerts m) = _
    rw [List.getD_eq_getElem?_getD]
    cases hk : (decodedFrames m)[k]? with
    | none => simp [List.getD_eq_getElem?_getD, hk]
    | some f =>
      simp only [Option.getD_some]
      exact List.take_of_length_le
        (le_of_eq (hlen_all f (List.getElem?_mem hk)))
  case pairs_mem =>
    intro p t
    show (alookup2 [] p t).isSome = true ↔ _
    simp [alookup2, alookup]
  case pos_mem =>
    intro p
    show (alookup [] p).isSome = true ↔ _
    simp [alookup]
  case slots_lt =>
    intro p t i hlook
    simp [alookup2, alookup] at hlook
  case slots_small =>
    intro p t i hlook
    simp [alookup2, alookup] at hlook
  case set_inj =>
    intro p t1 t2 i1 i2 h1
    simp [alookup2, alookup] at h1
  case idx_len => rfl
  case idx_spec =>
    intro j c0 hj
    simp at hj
  case idx_lt =>
    intro i hi
    simp [initSt] at hi
  case wr_lt =>
    intro wr hwr
    simp [initSt] at hwr
  case wr_nodup => exact List.nodup_nil
  case wr_seen =>
    intro wr hwr
    simp [initSt] at hwr

theorem run_inv (m : Model) (st : St) (hv : Valid m)
    (hr : run m = some st) : Inv m (cornersOf m.faces) st := by
  unfold run at hr
  cases hf : (decodedFrames m).head? with
  | none => rw [hf] at hr; cases hr
  | some f0 =>
    rw [hf] at hr
    have := inv_run m (m.header.skin_width : ℚ) (m.header.skin_height : ℚ)
      (cornersOf m.faces) [] (initSt m f0) st
      (fun c hc => (cornersOf_valid m hv c hc).1)
      (inv_init m f0 hv hf) hr
    simpa using this

end md2

namespace mdl

theorem cornerStep_someM (m : Model) (st st2 : St) (c : Bool × Nat)
    (hs : cornerStep m st c = some st2) :
    ∃ tc, m.texcoords.get? c.2 = some tc ∧
      (((c.1 = true ∧ tc.onseam > 0) ∧
         (∀ f ∈ st.verts, c.2 < f.length) ∧ st.verts ≠ [] ∧
         stLen st < st.tex.length ∧
         st2 = ⟨st.verts.map (fun f => f ++ [f.getD c.2 (0, 0, 0)]),
               st.indices ++ [stLen st],
               st.tex.set (stLen st) (seamST m c.2),
               st.writes ++ [(stLen st, seamST m c.2)]⟩) ∨
       (¬(c.1 = true ∧ tc.onseam > 0) ∧ c.2 < st.tex.length ∧
         st2 = ⟨st.verts, st.indices ++ [c.2],
               st.tex.set c.2 (plainST m c.2),
               st.writes ++ [(c.2, plainST m c.2)]⟩)) := by
  unfold cornerStep at hs
  split at hs
  · exact absurd hs (by simp)
  next tc htc =>
    refine ⟨tc, htc, ?_⟩
    split at hs
    next hseam =>
      left
      split at hs
      next hall =>
        split at hs
        · exact absurd hs (by simp)
        next f0 hf0 =>
          split at hs
          next hlt2 =>
            have hne : st.verts ≠ [] := by
              intro hnil
              rw [hnil] at hf0
              simp at hf0
            rw [List.head?_map] at hf0
            have hstep : ∃ f, st.verts.head? = some f ∧
                f0 = f ++ [f.getD c.2 (0, 0, 0)] := by
              cases hh : st.verts.head? with
              | none => rw [hh] at hf0; simp at hf0
              | some f =>
                rw [hh] at hf0
                exact ⟨f, rfl, (Option.some.inj hf0).symm⟩
            obtain ⟨f, hf, hf0eq⟩ := hstep
            have hlen : f0.length - 1 = stLen st := by
              simp [hf0eq, stLen, hf]
            rw [hlen] at hs hlt2
            exact ⟨hseam, hall, hne, hlt2, (Option.some.inj hs).symm⟩
          · exact absurd hs (by simp)
      · exact absurd hs (by simp)
    next hseam =>
      right
      split at hs
      next hlt =>
        exact ⟨hseam, hlt, (Option.some.inj hs).symm⟩
      · exact absurd hs (by simp)

theorem inv_stepM (m : Model) (c : Bool × Nat) (st st2 : St)
    (hc2 : c.2 < nVerts m) (hI : Inv m st)
    (hs : cornerStep m st c = some st2) : Inv m st2 := by
  obtain ⟨tc, htc, hcase⟩ := cornerStep_someM m st st2 c hs
  rcases hcase with ⟨hseam, hall, hne, hlen, rfl⟩ | ⟨hseam, hlt, rfl⟩
  · -- seam duplication branch
    have hLen : stLen ⟨st.verts.map (fun f => f ++ [f.getD c.2 (0, 0, 0)]),
        st.indices ++ [stLen st], st.tex.set (stLen st) (seamST m c.2),
        st.writes ++ [(stLen st, seamST m c.2)]⟩ = stLen st + 1 := by
      show ((st.verts.map (fun f => f ++ [f.getD c.2 (0, 0, 0)])).headD
        []).length = stLen st + 1
      exact md2.stLen_map_push st.verts (fun f => f.getD c.2 (0, 0, 0)) hne
    constructor
    case frames_count =>
      show (st.verts.map _).length = _
      rw [List.length_map]
      exact hI.frames_count
    case frames_len =>
      intro f hf
      rw [hLen]
      rcases List.mem_map.mp hf with ⟨f0, hf0, rfl⟩
      simp only [List.length_append, List.length_cons, List.length_nil]
      rw [hI.frames_len f0 hf0]
    case len_lb =>
      rw [hLen]
      exact le_trans hI.len_lb (Nat.le_succ _)
    case len_ub =>
      rw [hLen]
      show stLen st + 1 ≤ (st.tex.set (stLen st) (seamST m c.2)).length
      rw [List.length_set]
      omega
    case tex_len =>
      show (st.tex.set (stLen st) (seamST m c.2)).length = 3 * nVerts m
      rw [List.length_set]
      exact hI.tex_len
    case orig_take =>
      intro k
      show ((st.verts.map (fun f => f ++ [f.getD c.2 (0, 0, 0)])).getD k
        []).take (nVerts m) = _
      rw [List.getD_eq_getElem?_getD, List.getElem?_map]
      cases hk : st.verts[k]? with
      | none =>
        have hold := hI.orig_take k
        rw [List.getD_eq_getElem?_getD, hk] at hold
        simp only [Option.getD_none, List.take_nil] at hold
        simp only [Option.map_none', Option.getD_none, List.take_nil]
        exact hold
      | some f =>
        have hold := hI.orig_take k
        rw [List.getD_eq_getElem?_getD, hk] at hold
        simp only [Option.getD_some] at hold
        simp only [Option.map_some', Option.getD_some]
        rw [List.take_append_of_le_length, hold]
        rw [hI.frames_len f (List.getElem?_mem hk)]
        exact hI.len_lb
    case idx_lt =>
      intro i hi
      rw [hLen]
      rcases List.mem_append.mp hi with hl | hr
      · exact Nat.lt_succ_of_lt (hI.idx_lt i hl)
      · simp only [List.mem_singleton] at hr
        subst hr
        exact Nat.lt_succ_self _
    case wr_lt =>
      intro wr hwr
      rw [hLen]
      rcases List.mem_append.mp hwr with hl | hr
      · exact Nat.lt_succ_of_lt (hI.wr_lt wr hl)
      · simp only [List.mem_singleton] at hr
        subst hr
        exact Nat.lt_succ_self _
    case wr_small =>
      intro wr hwr hsmall
      rcases List.mem_append.mp hwr with hl | hr
      · exact hI.wr_small wr hl hsmall
      · simp only [List.mem_singleton] at hr
        subst hr
        exact absurd (lt_of_le_of_lt hI.len_lb hsmall) (lt_irrefl _)
    case wr_big_stable =>
      intro wr hwr hbig
      show (st.tex.set (stLen st) (seamST m c.2))[wr.1]? = some wr.2
      rcases List.mem_append.mp hwr with hl | hr
      · have hne2 : stLen st ≠ wr.1 := by
          have := hI.wr_lt wr hl
          omega
        rw [List.getElem?_set_ne hne2]
        exact hI.wr_big_stable wr hl hbig
      · simp only [List.mem_singleton] at hr
        subst hr
        exact List.getElem?_set_eq_of_lt _ hlen
    case wr_big_sorted =>
      show (bigSlots (nVerts m) (st.writes ++
        [(stLen st, seamST m c.2)])).Pairwise (· < ·)
      unfold bigSlots
      rw [List.filterMap_append]
      rw [List.pairwise_append]
      refine ⟨hI.wr_big_sorted, ?_, ?_⟩
      · simp [hI.len_lb]
      · intro a ha b hb
        simp only [List.filterMap_cons, List.filterMap_nil] at hb
        rw [if_pos hI.len_lb] at hb
        simp only [List.mem_singleton] at hb
        subst hb
        rcases List.mem_filterMap.mp ha with ⟨wr, hwr, hif⟩
        by_cases hc : nVerts m ≤ wr.1
        · rw [if_pos hc] at hif
          cases hif
          exact hI.wr_lt wr hwr
        · rw [if_neg hc] at hif
          cases hif
  · -- plain branch
    have hLen : stLen ⟨st.verts, st.indices ++ [c.2],
        st.tex.set c.2 (plainST m c.2),
        st.writes ++ [(c.2, plainST m c.2)]⟩ = stLen st := rfl
    constructor
    case frames_count => exact hI.frames_count
    case frames_len => exact hI.frames_len
    case len_lb => exact hI.len_lb
    case len_ub =>
      show stLen st ≤ (st.tex.set c.2 (plainST m c.2)).length
      rw [List.length_set]
      exact hI.len_ub
    case tex_len =>
      show (st.tex.set c.2 (plainST m c.2)).length = 3 * nVerts m
      rw [List.length_set]
      exact hI.tex_len
    case orig_take => exact hI.orig_take
    case idx_lt =>
      intro i hi
      rw [hLen]
      rcases List.mem_append.mp hi with hl | hr
      · exact hI.idx_lt i hl
      · simp only [List.mem_singleton] at hr
        subst hr
        exact lt_of_lt_of_le hc2 hI.len_lb
    case wr_lt =>
      intro wr hwr
      rw [hLen]
      rcases List.mem_append.mp hwr with hl | hr
      · exact hI.wr_lt wr hl
      · simp only [List.mem_singleton] at hr
        subst hr
        exact lt_of_lt_of_le hc2 hI.len_lb
    case wr_small =>
      intro wr hwr hsmall
      rcases List.mem_append.mp hwr with hl | hr
      · exact hI.wr_small wr hl hsmall
      · simp only [List.mem_singleton] at hr
        subst hr
        rfl
    case wr_big_stable =>
      intro wr hwr hbig
      show (st.tex.set c.2 (plainST m c.2))[wr.1]? = some wr.2
      rcases List.mem_append.mp hwr with hl | hr
      · have hne2 : c.2 ≠ wr.1 := by
          have := lt_of_lt_of_le hc2 hbig
          omega
        rw [List.getElem?_set_ne hne2]
        exact hI.wr_big_stable wr hl hbig
      · simp only [List.mem_singleton] at hr
        subst hr
        exact absurd (lt_of_lt_of_le hc2 hbig) (lt_irrefl _)
    case wr_big_sorted =>
      show (bigSlots (nVerts m) (st.writes ++
        [(c.2, plainST m c.2)])).Pairwise (· < ·)
      unfold bigSlots
      rw [List.filterMap_append]
      have hnone : List.filterMap (fun wr => if nVerts m ≤ wr.1 then
          some wr.1 else none) [(c.2, plainST m c.2)] = [] := by
        simp only [List.filterMap_cons, List.filterMap_nil]
        rw [if_neg (by omega)]
      rw [hnone, List.append_nil]
      exact hI.wr_big_sorted

end mdl

namespace mdl

theorem inv_runM (m : Model) :
    ∀ (cs : List (Bool × Nat)) (st stF : St),
    (∀ c ∈ cs, c.2 < nVerts m) → Inv m st →
    runCorners m st cs = some stF → Inv m stF
  | [], st, stF, _, hI, hr => by
    unfold runCorners at hr
    cases hr
    exact hI
  | c :: rest, st, stF, hv, hI, hr => by
    unfold runCorners at hr
    cases hstep : cornerStep m st c with
    | none => rw [hstep] at hr; cases hr
    | some st2 =>
      rw [hstep] at hr
      exact inv_runM m rest st2 stF
        (fun c0 hc0 => hv c0 (List.mem_cons_of_mem _ hc0))
        (inv_stepM m c st st2 (hv c (List.mem_cons_self _ _)) hI hstep) hr

theorem cornersOf_specM :
    ∀ (ts : List Triangle) (P : Nat → Prop),
    (∀ t ∈ ts, P t.vertex.1 ∧ P t.vertex.2.1 ∧ P t.vertex.2.2) →
    ∀ c ∈ cornersOf ts, P c.2
  | [], _, _, c, hc => by simp [cornersOf] at hc
  | t :: rest, P, ht, c, hc => by
    simp only [cornersOf, List.mem_cons] at hc
    have htf := ht t (List.mem_cons_self _ _)
    rcases hc with rfl | rfl | rfl | hc
    · exact htf.1
    · exact htf.2.1
    · exact htf.2.2
    · exact cornersOf_specM rest P
        (fun g hg => ht g (List.mem_cons_of_mem _ hg)) c hc

theorem cornersOf_validM (m : Model) (hv : Valid m) :
    ∀ c ∈ cornersOf m.triangles, c.2 < nVerts m :=
  cornersOf_specM m.triangles (fun p => p < nVerts m)
    (fun t ht => (hv.2.2 t ht).1)

theorem decodedFrames_headM (m : Model) (f0 : List Vec3)
    (hf : (decodedFrames m).head? = some f0) (hv : Valid m) :
    f0.length = nVerts m := by
  cases hfr : m.frames with
  | nil =>
    unfold decodedFrames at hf
    rw [hfr] at hf
    simp at hf
  | cons fr rest =>
    unfold decodedFrames at hf
    rw [hfr] at hf
    simp only [List.map_cons, List.head?_cons, Option.some.injEq] at hf
    rw [← hf]
    simp only [List.length_map]
    exact hv.2.1 fr (by rw [hfr]; exact List.mem_cons_self _ _)

theorem inv_initM (m : Model) (f0 : List Vec3) (hv : Valid m)
    (hf : (decodedFrames m).head? = some f0) :
    Inv m (initSt m f0) := by
  have hn : f0.length = nVerts m := decodedFrames_headM m f0 hf hv
  have hD : (decodedFrames m).headD [] = f0 := by
    cases hd : decodedFrames m with
    | nil => rw [hd] at hf; simp at hf
    | cons a r =>
      rw [hd] at hf
      simp only [List.head?_cons, Option.some.injEq] at hf
      rw [List.headD_cons, hf]
  have hlen_all : ∀ f ∈ decodedFrames m, f.length = nVerts m := by
    intro f hmem
    unfold decodedFrames at hmem
    rcases List.mem_map.mp hmem with ⟨fr, hfr, rfl⟩
    simp only [List.length_map]
    exact hv.2.1 fr hfr
  have hstl : stLen (initSt m f0) = nVerts m := by
    show ((decodedFrames m).headD []).length = nVerts m
    rw [hD, hn]
  constructor
  case frames_count => rfl
  case frames_len =>
    intro f hmem
    rw [hstl]
    exact hlen_all f hmem
  case len_lb => rw [hstl]
  case len_ub =>
    rw [hstl]
    show nVerts m ≤ (List.replicate (f0.length * 3) ((0 : ℚ), (0 : ℚ))).length
    rw [List.length_replicate, hn]
    omega
  case tex_len =>
    show (List.replicate (f0.length * 3) ((0 : ℚ), (0 : ℚ))).length = _
    rw [List.length_replicate, hn]
    omega
  case orig_take =>
    intro k
    show ((decodedFrames m).getD k []).take (nVerts m) = _
    rw [List.getD_eq_getElem?_getD]
    cases hk : (decodedFrames m)[k]? with
    | none => simp [List.getD_eq_getElem?_getD, hk]
    | some f =>
      simp only [Option.getD_some]
      exact List.take_of_length_le
        (le_of_eq (hlen_all f (List.getElem?_mem hk)))
  case idx_lt =>
    intro i hi
    simp [initSt] at hi
  case wr_lt =>
    intro wr hwr
    simp [initSt] at hwr
  case wr_small =>
    intro wr hwr
    simp [initSt] at hwr
  case wr_big_stable =>
    intro wr hwr
    simp [initSt] at hwr
  case wr_big_sorted =>
    show (bigSlots (nVerts m) []).Pairwise (· < ·)
    exact List.Pairwise.nil

theorem run_invM (m : Model) (st : St) (hv : Valid m)
    (hr : run m = some st) : Inv m st := by
  unfold run at hr
  cases hf : (decodedFrames m).head? with
  | none => rw [hf] at hr; cases hr
  | some f0 =>
    rw [hf] at hr
    exact inv_runM m (cornersOf m.triangles) (initSt m f0) st
      (fun c hc => cornersOf_validM m hv c hc)
      (inv_initM m f0 hv hf) hr

theorem tex_plain_persist (m : Model) (p : Nat) (hp : p < nVerts m) :
    ∀ (cs : List (Bool × Nat)) (st stF : St), Inv m st →
    (∀ c ∈ cs, c.2 < nVerts m) →
    runCorners m st cs = some stF →
    st.tex[p]? = some (plainST m p) →
    stF.tex[p]? = some (plainST m p)
  | [], st, stF, _, _, hr, htex => by
    unfold runCorners at hr
    cases hr
    exact htex
  | c :: rest, st, stF, hI, hv, hr, htex => by
    unfold runCorners at hr
    cases hstep : cornerStep m st c with
    | none => rw [hstep] at hr; cases hr
    | some st2 =>
      rw [hstep] at hr
      refine tex_plain_persist m p hp rest st2 stF
        (inv_stepM m c st st2 (hv c (List.mem_cons_self _ _)) hI hstep)
        (fun c0 hc0 => hv c0 (List.mem_cons_of_mem _ hc0)) hr ?_
      obtain ⟨tc, htc, hcase⟩ := cornerStep_someM m st st2 c hstep
      rcases hcase with ⟨_, _, _, hlen, rfl⟩ | ⟨_, _, rfl⟩
      · show (st.tex.set (stLen st) (seamST m c.2))[p]? = _
        rw [List.getElem?_set_ne (by
          have := lt_of_lt_of_le hp hI.len_lb
          omega)]
        exact htex
      · show (st.tex.set c.2 (plainST m c.2))[p]? = _
        by_cases hc : c.2 = p
        · subst hc
          have hplt : c.2 < st.tex.length := by
            by_contra hge
            rw [List.getElem?_eq_none (Nat.le_of_not_lt hge)] at htex
            cases htex
          rw [List.getElem?_set_eq_of_lt _ hplt]
        · rw [List.getElem?_set_ne hc]
          exact htex

end mdl

namespace mdl

theorem writes_mono (m : Model) :
    ∀ (cs : List (Bool × Nat)) (st stF : St),
    runCorners m st cs = some stF →
    ∀ wr ∈ st.writes, wr ∈ stF.writes
  | [], st, stF, hr, wr, hwr => by
    unfold runCorners at hr
    cases hr
    exact hwr
  | c :: rest, st, stF, hr, wr, hwr => by
    unfold runCorners at hr
    cases hstep : cornerStep m st c with
    | none => rw [hstep] at hr; cases hr
    | some st2 =>
      rw [hstep] at hr
      refine writes_mono m rest st2 stF hr wr ?_
      obtain ⟨tc, htc, hcase⟩ := cornerStep_someM m st st2 c hstep
      rcases hcase with ⟨_, _, _, _, rfl⟩ | ⟨_, _, rfl⟩
      · exact List.mem_append_left _ hwr
      · exact List.mem_append_left _ hwr

theorem runCorners_mem_split (m : Model) (cs : List (Bool × Nat))
    (c : Bool × Nat) (hc : c ∈ cs) (st0 stF : St)
    (hr : runCorners m st0 cs = some stF) :
    ∃ l1 l2 s1 s2, cs = l1 ++ c :: l2 ∧ runCorners m st0 l1 = some s1 ∧
      cornerStep m s1 c = some s2 ∧ runCorners m s2 l2 = some stF := by
  obtain ⟨l1, l2, rfl⟩ := List.append_of_mem hc
  rw [runCorners_appendM] at hr
  cases h1 : runCorners m st0 l1 with
  | none => rw [h1] at hr; cases hr
  | some s1 =>
    rw [h1] at hr
    replace hr : runCorners m s1 (c :: l2) = some stF := hr
    unfold runCorners at hr
    cases h2 : cornerStep m s1 c with
    | none => rw [h2] at hr; cases hr
    | some s2 =>
      rw [h2] at hr
      exact ⟨l1, l2, s1, s2, rfl, h1, h2, hr⟩

theorem mem_cornersOf :
    ∀ (ts : List Triangle) (t : Triangle), t ∈ ts →
    ∀ p, (p = t.vertex.1 ∨ p = t.vertex.2.1 ∨ p = t.vertex.2.2) →
    (decide (t.facefront = 0), p) ∈ cornersOf ts
  | [], t, ht, _, _ => absurd ht (List.not_mem_nil t)
  | t0 :: rest, t, ht, p, hp => by
    rcases List.mem_cons.mp ht with rfl | htail
    · simp only [cornersOf, List.mem_cons]
      rcases hp with rfl | rfl | rfl
      · exact Or.inl rfl
      · exact Or.inr (Or.inl rfl)
      · exact Or.inr (Or.inr (Or.inl rfl))
    · simp only [cornersOf, List.mem_cons]
      exact Or.inr (Or.inr (Or.inr (mem_cornersOf rest t htail p hp)))

theorem run_front_tex (m : Model) (hv : Valid m) (stF : St)
    (hr : run m = some stF) (p : Nat) (hp : p < nVerts m)
    (hc : (false, p) ∈ cornersOf m.triangles) :
    stF.tex[p]? = some (plainST m p) := by
  unfold run at hr
  cases hf : (decodedFrames m).head? with
  | none => rw [hf] at hr; cases hr
  | some f0 =>
    rw [hf] at hr
    obtain ⟨l1, l2, s1, s2, hsplit, h1, h2, h3⟩ :=
      runCorners_mem_split m (cornersOf m.triangles) (false, p) hc
        (initSt m f0) stF hr
    have hvl1 : ∀ c ∈ l1, c.2 < nVerts m := by
      intro c0 hc0
      refine cornersOf_validM m hv c0 ?_
      rw [hsplit]
      exact List.mem_append_left _ hc0
    have hvl2 : ∀ c ∈ l2, c.2 < nVerts m := by
      intro c0 hc0
      refine cornersOf_validM m hv c0 ?_
      rw [hsplit]
      exact List.mem_append_right _ (List.mem_cons_of_mem _ hc0)
    have hI1 : Inv m s1 := inv_runM m l1 (initSt m f0) s1 hvl1
      (inv_initM m f0 hv hf) h1
    have hI2 : Inv m s2 := inv_stepM m (false, p) s1 s2 hp hI1 h2
    obtain ⟨tc, htc, hcase⟩ := cornerStep_someM m s1 s2 (false, p) h2
    rcases hcase with ⟨⟨hfalse, _⟩, _⟩ | ⟨_, hlt, rfl⟩
    · cases hfalse
    · refine tex_plain_persist m p hp l2 _ stF hI2 hvl2 h3 ?_
      show (s1.tex.set p (plainST m p))[p]? = some (plainST m p)
      exact List.getElem?_set_eq_of_lt _ hlt

theorem run_back_seam (m : Model) (hv : Valid m) (stF : St)
    (hr : run m = some stF) (p : Nat) (hp : p < nVerts m)
    (hc : (true, p) ∈ cornersOf m.triangles)
    (tc : TexCoord) (htc : m.texcoords.get? p = some tc)
    (hseam : tc.onseam > 0) :
    ∃ q, nVerts m ≤ q ∧ stF.tex[q]? = some (seamST m p) := by
  unfold run at hr
  cases hf : (decodedFrames m).head? with
  | none => rw [hf] at hr; cases hr
  | some f0 =>
    rw [hf] at hr
    have hIF : Inv m stF := by
      refine inv_runM m (cornersOf m.triangles) (initSt m f0) stF
        (fun c hc0 => cornersOf_validM m hv c hc0)
        (inv_initM m f0 hv hf) hr
    obtain ⟨l1, l2, s1, s2, hsplit, h1, h2, h3⟩ :=
      runCorners_mem_split m (cornersOf m.triangles) (true, p) hc
        (initSt m f0) stF hr
    have hvl1 : ∀ c ∈ l1, c.2 < nVerts m := by
      intro c0 hc0
      refine cornersOf_validM m hv c0 ?_
      rw [hsplit]
      exact List.mem_append_left _ hc0
    have hI1 : Inv m s1 := inv_runM m l1 (initSt m f0) s1 hvl1
      (inv_initM m f0 hv hf) h1
    obtain ⟨tc2, htc2, hcase⟩ := cornerStep_someM m s1 s2 (true, p) h2
    have htceq : tc2 = tc := by
      rw [show ((true, p) : Bool × Nat).2 = p from rfl] at htc2
      rw [htc] at htc2
      exact (Option.some.inj htc2).symm
    subst htceq
    rcases hcase with ⟨_, _, _, hlen, rfl⟩ | ⟨hns, _, rfl⟩
    · refine ⟨stLen s1, hI1.len_lb, ?_⟩
      have hmem : (stLen s1, seamST m p) ∈ stF.writes := by
        refine writes_mono m l2 _ stF h3 _ ?_
        exact List.mem_append_right _ (by simp)
      exact hIF.wr_big_stable _ hmem hI1.len_lb
    · exact absurd ⟨rfl, hseam⟩ hns

end mdl

namespace md2

theorem sim_step (m : Model) (w h : ℚ) (st st2 : St) (pst : ProjSt)
    (c : Nat × Nat) (hset : st.set = pst.set) (hlen : stLen st = pst.len)
    (hs : cornerStep m w h st c = some st2) :
    st2.set = (projStep pst c).set ∧ stLen st2 = (projStep pst c).len := by
  obtain ⟨tc, htc, hcase⟩ := cornerStep_some m w h st st2 c hs
  rcases hcase with ⟨hnone, hlt, rfl⟩ | ⟨sub, i, hsub, hi, rfl⟩ |
    ⟨sub, hsub, hi, hall, hne, hlen2, rfl⟩
  · have hproj : projStep pst c = ⟨(c.1, [(c.2, c.1)]) :: pst.set, pst.len⟩ := by
      unfold projStep
      rw [← hset, hnone]
    rw [hproj]
    constructor
    · show (c.1, [(c.2, c.1)]) :: st.set = (c.1, [(c.2, c.1)]) :: pst.set
      rw [hset]
    · exact hlen
  · have hsubP : alookup pst.set c.1 = some sub := by
      rw [← hset]
      exact hsub
    have hproj : projStep pst c = pst := by
      unfold projStep
      split
      next heq => rw [hsubP] at heq; cases heq
      next sub2 heq =>
        have hsub2 : sub2 = sub := (Option.some.inj (hsubP.symm.trans heq)).symm
        split
        next => rfl
        next heq2 =>
          rw [hsub2, hi] at heq2
          cases heq2
    rw [hproj]
    exact ⟨hset, hlen⟩
  · have hsubP : alookup pst.set c.1 = some sub := by
      rw [← hset]
      exact hsub
    have hproj : projStep pst c =
        ⟨aupdate pst.set c.1 c.2 pst.len, pst.len + 1⟩ := by
      unfold projStep
      split
      next heq => rw [hsubP] at heq; cases heq
      next sub2 heq =>
        have hsub2 : sub2 = sub := (Option.some.inj (hsubP.symm.trans heq)).symm
        split
        next i2 heq2 =>
          rw [hsub2, hi] at heq2
          cases heq2
        next => rfl
    rw [hproj]
    constructor
    · show aupdate st.set c.1 c.2 (stLen st) = aupdate pst.set c.1 c.2 pst.len
      rw [hset, hlen]
    · show ((st.verts.map (fun f => f ++ [f.getD c.1 (0, 0, 0)])).headD
        []).length = pst.len + 1
      rw [md2.stLen_map_push st.verts (fun f => f.getD c.1 (0, 0, 0)) hne]
      have hlen3 : (st.verts.headD []).length = pst.len := hlen
      omega

theorem run_sim (m : Model) (w h : ℚ) :
    ∀ (cs : List (Nat × Nat)) (st stF : St) (pst : ProjSt),
    st.set = pst.set → stLen st = pst.len →
    runCorners m w h st cs = some stF →
    stF.set = (projRun pst cs).set ∧ stLen stF = (projRun pst cs).len
  | [], st, stF, pst, hset, hlen, hr => by
    unfold runCorners at hr
    cases hr
    exact ⟨hset, hlen⟩
  | c :: rest, st, stF, pst, hset, hlen, hr => by
    unfold runCorners at hr
    cases hstep : cornerStep m w h st c with
    | none => rw [hstep] at hr; cases hr
    | some st2 =>
      rw [hstep] at hr
      obtain ⟨hset2, hlen2⟩ := sim_step m w h st st2 pst c hset hlen hstep
      exact run_sim m w h rest st2 stF (projStep pst c) hset2 hlen2 hr

theorem proj_len_step (pst : ProjSt) (c : Nat × Nat) :
    pst.len ≤ (projStep pst c).len := by
  unfold projStep
  split
  · exact le_refl _
  · split
    · exact le_refl _
    · exact Nat.le_succ _

theorem proj_len_mono :
    ∀ (cs : List (Nat × Nat)) (pst : ProjSt),
    pst.len ≤ (projRun pst cs).len
  | [], _ => le_refl _
  | c :: rest, pst =>
    le_trans (proj_len_step pst c) (proj_len_mono rest (projStep pst c))

theorem cornerStep_total (m : Model) (w h : ℚ) (st : St) (c : Nat × Nat)
    (htex : c.2 < m.texcoords.length) (hc1 : c.1 < nVerts m)
    (htl : st.tex.length = 2 * nVerts m)
    (hfl : ∀ f ∈ st.verts, f.length = stLen st)
    (hlb : nVerts m ≤ stLen st) (hne : st.verts ≠ [])
    (hgate : alookup2 st.set c.1 c.2 = none →
      (alookup st.set c.1).isSome = true → stLen st < st.tex.length) :
    (cornerStep m w h st c).isSome = true := by
  have htc : m.texcoords.get? c.2 = some (m.texcoords.get ⟨c.2, htex⟩) :=
    List.get?_eq_get htex
  unfold cornerStep
  split
  next heq => rw [htc] at heq; cases heq
  next tc heq =>
    split
    next =>
      rw [if_pos (by omega)]
      rfl
    next sub hsub =>
      split
      next => rfl
      next hi =>
        have hg : stLen st < st.tex.length := by
          refine hgate ?_ ?_
          · unfold alookup2
            split
            next => rfl
            next sub2 heq2 =>
              rw [(Option.some.inj (hsub.symm.trans heq2)).symm, hi]
          · rw [hsub]
            rfl
        rw [if_pos (fun f hf => by
          rw [hfl f hf]
          exact lt_of_lt_of_le hc1 hlb)]
        split
        next hhead =>
          rw [List.head?_map] at hhead
          cases hh : st.verts.head? with
          | none => exact absurd (List.head?_eq_none_iff.mp hh) hne
          | some f => rw [hh] at hhead; cases hhead
        next f0 hf0 =>
          rw [List.head?_map] at hf0
          have hstep2 : ∃ f, st.verts.head? = some f ∧
              f0 = f ++ [f.getD c.1 (0, 0, 0)] := by
            cases hh : st.verts.head? with
            | none => rw [hh] at hf0; simp at hf0
            | some f =>
              rw [hh] at hf0
              exact ⟨f, rfl, (Option.some.inj hf0).symm⟩
          obtain ⟨f, hf, hf0eq⟩ := hstep2
          have hlen3 : f0.length - 1 = stLen st := by
            simp [hf0eq, stLen, hf]
          rw [hlen3, if_pos hg]
          rfl

theorem run_total (m : Model) (w h : ℚ) :
    ∀ (cs cs0 : List (Nat × Nat)) (st : St) (pst : ProjSt),
    Inv m cs0 st → m.frames ≠ [] →
    st.set = pst.set → stLen st = pst.len →
    (∀ c ∈ cs, c.1 < nVerts m ∧ c.2 < m.texcoords.length) →
    (projRun pst cs).len ≤ 2 * nVerts m →
    (runCorners m w h st cs).isSome = true
  | [], _, _, _, _, _, _, _, _, _ => rfl
  | c :: rest, cs0, st, pst, hI, hfne, hset, hlen, hcv, hfin => by
    have hvne : st.verts ≠ [] := by
      intro hnil
      have hcount := hI.frames_count
      rw [hnil] at hcount
      unfold decodedFrames at hcount
      cases hfr : m.frames with
      | nil => exact hfne hfr
      | cons a r =>
        rw [hfr] at hcount
        simp at hcount
    have hgate : alookup2 st.set c.1 c.2 = none →
        (alookup st.set c.1).isSome = true → stLen st < st.tex.length := by
      intro hpair hpos
      obtain ⟨sub, hsub⟩ := Option.isSome_iff_exists.mp hpos
      have hsub2 : alookup pst.set c.1 = some sub := by rw [← hset]; exact hsub
      have hi : alookup sub c.2 = none := by
        unfold alookup2 at hpair
        rw [hsub] at hpair
        exact hpair
      have hps : (projStep pst c).len = pst.len + 1 := by
        unfold projStep
        split
        next heq => rw [hsub2] at heq; cases heq
        next sub3 heq =>
          have hsub3 : sub3 = sub := (Option.some.inj (hsub2.symm.trans heq)).symm
          split
          next i2 heq2 =>
            rw [hsub3, hi] at heq2
            cases heq2
          next => rfl
      have h1 : (projStep pst c).len ≤ (projRun (projStep pst c) rest).len :=
        proj_len_mono rest (projStep pst c)
      have hfin2 : (projRun (projStep pst c) rest).len ≤ 2 * nVerts m := hfin
      have hlen2 : stLen st = pst.len := hlen
      rw [hI.tex_len]
      omega
    have hsome := cornerStep_total m w h st c (hcv c (List.mem_cons_self _ _)).2
      (hcv c (List.mem_cons_self _ _)).1 hI.tex_len hI.frames_len
      hI.len_lb hvne hgate
    obtain ⟨st2, hst2⟩ := Option.isSome_iff_exists.mp hsome
    unfold runCorners
    rw [hst2]
    obtain ⟨hset2, hlen2⟩ := sim_step m w h st st2 pst c hset hlen hst2
    exact run_total m w h rest (cs0 ++ [c]) st2 (projStep pst c)
      (inv_step m w h cs0 c st st2 (hcv c (List.mem_cons_self _ _)).1 hI hst2)
      hfne hset2 hlen2
      (fun c0 hc0 => hcv c0 (List.mem_cons_of_mem _ hc0)) hfin

theorem run_isSome_iff (m : Model) (hv : Valid m) :
    (run m).isSome = true ↔ finalLen m ≤ 2 * nVerts m := by
  have hfne : m.frames ≠ [] := hv.1
  have hf : ∃ f0, (decodedFrames m).head? = some f0 := by
    unfold decodedFrames
    cases hfr : m.frames with
    | nil => exact absurd hfr hfne
    | cons a r => exact ⟨_, rfl⟩
  obtain ⟨f0, hf0⟩ := hf
  have hstl : stLen (initSt m f0) = nVerts m := by
    have hD : (decodedFrames m).headD [] = f0 := by
      cases hd : decodedFrames m with
      | nil => rw [hd] at hf0; cases hf0
      | cons a r =>
        rw [hd] at hf0
        simp only [List.head?_cons, Option.some.injEq] at hf0
        rw [List.headD_cons, hf0]
    show ((decodedFrames m).headD []).length = nVerts m
    rw [hD]
    exact decodedFrames_head m f0 hf0 hv
  constructor
  · intro hsome
    obtain ⟨stF, hstF⟩ := Option.isSome_iff_exists.mp hsome
    unfold run at hstF
    rw [hf0] at hstF
    obtain ⟨_, hlenF⟩ := run_sim m (m.header.skin_width : ℚ)
      (m.header.skin_height : ℚ) (cornersOf m.faces) (initSt m f0) stF
      ⟨[], nVerts m⟩ rfl hstl hstF
    have hIF := run_inv m stF hv (by unfold run; rw [hf0]; exact hstF)
    have hub := hIF.len_ub
    rw [hIF.tex_len] at hub
    unfold finalLen
    rw [← hlenF]
    exact hub
  · intro hfin
    unfold run
    rw [hf0]
    exact run_total m (m.header.skin_width : ℚ) (m.header.skin_height : ℚ)
      (cornersOf m.faces) [] (initSt m f0) ⟨[], nVerts m⟩
      (inv_init m f0 hv hf0) hfne rfl hstl
      (cornersOf_valid m hv) hfin

theorem run_len_eq (m : Model) (stF : St) (hv : Valid m)
    (hr : run m = some stF) : stLen stF = finalLen m := by
  have hfne : m.frames ≠ [] := hv.1
  unfold run at hr
  cases hf0 : (decodedFrames m).head? with
  | none => rw [hf0] at hr; cases hr
  | some f0 =>
    rw [hf0] at hr
    have hstl : stLen (initSt m f0) = nVerts m := by
      have hD : (decodedFrames m).headD [] = f0 := by
        cases hd : decodedFrames m with
        | nil => rw [hd] at hf0; cases hf0
        | cons a r =>
          rw [hd] at hf0
          simp only [List.head?_cons, Option.some.injEq] at hf0
          rw [List.headD_cons, hf0]
      show ((decodedFrames m).headD []).length = nVerts m
      rw [hD]
      exact decodedFrames_head m f0 hf0 hv
    exact (run_sim m (m.header.skin_width : ℚ) (m.header.skin_height : ℚ)
      (cornersOf m.faces) (initSt m f0) stF ⟨[], nVerts m⟩ rfl hstl hr).2

end md2

namespace mdl

theorem sim_stepM (m : Model) (st st2 : St) (c : Bool × Nat)
    (hs : cornerStep m st c = some st2) :
    stLen st2 = stLen st + (if isSeam m c then 1 else 0) := by
  obtain ⟨tc, htc, hcase⟩ := cornerStep_someM m st st2 c hs
  rcases hcase with ⟨⟨hb, hos⟩, hall, hne, hlen, rfl⟩ | ⟨hns, hlt, rfl⟩
  · have hseam : isSeam m c = true := by
      unfold isSeam
      rw [hb, htc]
      simp [hos]
    rw [hseam, if_pos rfl]
    show ((st.verts.map (fun f => f ++ [f.getD c.2 (0, 0, 0)])).headD
      []).length = stLen st + 1
    exact md2.stLen_map_push st.verts (fun f => f.getD c.2 (0, 0, 0)) hne
  · have hseam : isSeam m c = false := by
      unfold isSeam
      rw [htc]
      by_cases hb : c.1 = true
      · have hos : ¬ tc.onseam > 0 := fun hos => hns ⟨hb, hos⟩
        simp [hos]
      · have hcf : c.1 = false := by
          cases hcb : c.1
          · rfl
          · exact absurd hcb hb
        simp [hcf]
    rw [hseam, if_neg (by simp)]
    rfl

theorem run_len (m : Model) :
    ∀ (cs : List (Bool × Nat)) (st stF : St),
    runCorners m st cs = some stF →
    stLen stF = stLen st + cs.countP (fun c => isSeam m c)
  | [], st, stF, hr => by
    unfold runCorners at hr
    cases hr
    simp
  | c :: rest, st, stF, hr => by
    unfold runCorners at hr
    cases hstep : cornerStep m st c with
    | none => rw [hstep] at hr; cases hr
    | some st2 =>
      rw [hstep] at hr
      rw [run_len m rest st2 stF hr, sim_stepM m st st2 c hstep,
        List.countP_cons]
      by_cases hseam : isSeam m c = true
      · simp [hseam]
        omega
      · rw [Bool.not_eq_true] at hseam
        simp [hseam]
  
theorem cornerStep_totalM (m : Model) (st : St) (c : Bool × Nat)
    (htex : c.2 < m.texcoords.length) (hc2 : c.2 < nVerts m)
    (hfl : ∀ f ∈ st.verts, f.length = stLen st)
    (hlb : nVerts m ≤ stLen st) (hub : stLen st ≤ st.tex.length)
    (hne : st.verts ≠ [])
    (hgate : isSeam m c = true → stLen st < st.tex.length) :
    (cornerStep m st c).isSome = true := by
  have htc : m.texcoords.get? c.2 = some (m.texcoords.get ⟨c.2, htex⟩) :=
    List.get?_eq_get htex
  unfold cornerStep
  split
  next heq => rw [htc] at heq; cases heq
  next tc heq =>
    have htceq : tc = m.texcoords.get ⟨c.2, htex⟩ :=
      Option.some.inj (htc.symm.trans heq).symm
    split
    next hseam =>
      have hg : stLen st < st.tex.length := by
        refine hgate ?_
        unfold isSeam
        rw [hseam.1, heq]
        simp [hseam.2]
      rw [if_pos (fun f hf => by
        rw [hfl f hf]
        exact lt_of_lt_of_le hc2 hlb)]
      split
      next hhead =>
        rw [List.head?_map] at hhead
        cases hh : st.verts.head? with
        | none => exact absurd (List.head?_eq_none_iff.mp hh) hne
        | some f => rw [hh] at hhead; cases hhead
      next f0 hf0 =>
        rw [List.head?_map] at hf0
        have hstep2 : ∃ f, st.verts.head? = some f ∧
            f0 = f ++ [f.getD c.2 (0, 0, 0)] := by
          cases hh : st.verts.head? with
          | none => rw [hh] at hf0; simp at hf0
          | some f =>
            rw [hh] at hf0
            exact ⟨f, rfl, (Option.some.inj hf0).symm⟩
        obtain ⟨f, hf, hf0eq⟩ := hstep2
        have hlen3 : f0.length - 1 = stLen st := by
          simp [hf0eq, stLen, hf]
        rw [hlen3, if_pos hg]
        rfl
    next hseam =>
      rw [if_pos (lt_of_lt_of_le (lt_of_lt_of_le hc2 hlb) hub)]
      rfl

theorem run_totalM (m : Model) :
    ∀ (cs : List (Bool × Nat)) (st : St),
    Inv m st → m.frames ≠ [] →
    (∀ c ∈ cs, c.2 < nVerts m ∧ c.2 < m.texcoords.length) →
    stLen st + cs.countP (fun c => isSeam m c) ≤ 3 * nVerts m →
    (runCorners m st cs).isSome = true
  | [], _, _, _, _, _ => rfl
  | c :: rest, st, hI, hfne, hcv, hfin => by
    have hvne : st.verts ≠ [] := by
      intro hnil
      have hcount := hI.frames_count
      rw [hnil] at hcount
      unfold decodedFrames at hcount
      cases hfr : m.frames with
      | nil => exact hfne hfr
      | cons a r =>
        rw [hfr] at hcount
        simp at hcount
    rw [List.countP_cons] at hfin
    have hgate : isSeam m c = true → stLen st < st.tex.length := by
      intro hseam
      rw [hI.tex_len]
      rw [hseam] at hfin
      simp at hfin
      omega
    have hsome := cornerStep_totalM m st c (hcv c (List.mem_cons_self _ _)).2
      (hcv c (List.mem_cons_self _ _)).1 hI.frames_len hI.len_lb hI.len_ub
      hvne hgate
    obtain ⟨st2, hst2⟩ := Option.isSome_iff_exists.mp hsome
    unfold runCorners
    rw [hst2]
    refine run_totalM m rest st2
      (inv_stepM m c st st2 (hcv c (List.mem_cons_self _ _)).1 hI hst2)
      hfne (fun c0 hc0 => hcv c0 (List.mem_cons_of_mem _ hc0)) ?_
    rw [sim_stepM m st st2 c hst2]
    by_cases hseam : isSeam m c = true
    · simp [hseam] at hfin ⊢
      omega
    · rw [Bool.not_eq_true] at hseam
      simp [hseam] at hfin ⊢
      omega

theorem stLen_init (m : Model) (f0 : List Vec3) (hv : Valid m)
    (hf0 : (decodedFrames m).head? = some f0) :
    stLen (initSt m f0) = nVerts m := by
  have hD : (decodedFrames m).headD [] = f0 := by
    cases hd : decodedFrames m with
    | nil => rw [hd] at hf0; cases hf0
    | cons a r =>
      rw [hd] at hf0
      simp only [List.head?_cons, Option.some.injEq] at hf0
      rw [List.headD_cons, hf0]
  show ((decodedFrames m).headD []).length = nVerts m
  rw [hD]
  exact decodedFrames_headM m f0 hf0 hv

theorem run_isSome_iffM (m : Model) (hv : Valid m) :
    (run m).isSome = true ↔ finalLen m ≤ 3 * nVerts m := by
  have hfne : m.frames ≠ [] := hv.1
  have hf : ∃ f0, (decodedFrames m).head? = some f0 := by
    unfold decodedFrames
    cases hfr : m.frames with
    | nil => exact absurd hfr hfne
    | cons a r => exact ⟨_, rfl⟩
  obtain ⟨f0, hf0⟩ := hf
  have hstl := stLen_init m f0 hv hf0
  constructor
  · intro hsome
    obtain ⟨stF, hstF⟩ := Option.isSome_iff_exists.mp hsome
    unfold run at hstF
    rw [hf0] at hstF
    have hlenF := run_len m (cornersOf m.triangles) (initSt m f0) stF hstF
    have hIF := run_invM m stF hv (by unfold run; rw [hf0]; exact hstF)
    have hub := hIF.len_ub
    rw [hIF.tex_len] at hub
    unfold finalLen
    omega
  · intro hfin
    unfold run
    rw [hf0]
    refine run_totalM m (cornersOf m.triangles) (initSt m f0)
      (inv_initM m f0 hv hf0) hfne ?_ ?_
    · intro c hc
      refine ⟨cornersOf_validM m hv c hc, ?_⟩
      refine cornersOf_specM m.triangles (fun p => p < m.texcoords.length)
        (fun t ht => (hv.2.2 t ht).2) c hc
    · rw [hstl]
      exact hfin

theorem run_len_eqM (m : Model) (stF : St) (hv : Valid m)
    (hr : run m = some stF) : stLen stF = finalLen m := by
  unfold run at hr
  cases hf0 : (decodedFrames m).head? with
  | none => rw [hf0] at hr; cases hr
  | some f0 =>
    rw [hf0] at hr
    rw [run_len m (cornersOf m.triangles) (initSt m f0) stF hr,
      stLen_init m f0 hv hf0]
    rfl

end mdl



theorem findIdx_none_takeWhile :
    ∀ (l : List Nat) (i : Nat),
    l.findIdx? (fun b => b == 0) i = none →
    l.takeWhile (fun b => b != 0) = l
  | [], _, _ => rfl
  | b :: rest, i, hf => by
    rw [List.findIdx?_cons] at hf
    by_cases hb : (b == 0) = true
    · rw [if_pos hb] at hf
      cases hf
    · rw [if_neg hb] at hf
      unfold List.takeWhile
      have hb2 : (b != 0) = true := by
        simp only [bne]
        simp only [Bool.not_eq_true] at hb ⊢
        rw [hb]
        rfl
      rw [hb2]
      rw [findIdx_none_takeWhile rest (i + 1) hf]

theorem findIdx_some_takeWhile :
    ∀ (l : List Nat) (i j : Nat),
    l.findIdx? (fun b => b == 0) i = some j →
    i ≤ j ∧ l.take (j - i) = l.takeWhile (fun b => b != 0)
  | [], i, j, hf => by cases hf
  | b :: rest, i, j, hf => by
    rw [List.findIdx?_cons] at hf
    by_cases hb : (b == 0) = true
    · rw [if_pos hb] at hf
      cases hf
      refine ⟨le_refl _, ?_⟩
      have hb2 : (b != 0) = false := by
        simp only [bne, hb]
        rfl
      rw [Nat.sub_self]
      unfold List.takeWhile
      rw [hb2]
      rfl
    · rw [if_neg hb] at hf
      obtain ⟨hij, hrec⟩ := findIdx_some_takeWhile rest (i + 1) j hf
      refine ⟨le_trans (Nat.le_succ _) hij, ?_⟩
      have hb2 : (b != 0) = true := by
        simp only [bne]
        simp only [Bool.not_eq_true] at hb ⊢
        rw [hb]
        rfl
      unfold List.takeWhile
      rw [hb2]
      have hji : j - i = (j - (i + 1)) + 1 := by omega
      rw [hji, List.take_succ_cons, hrec]

theorem to_utf8_takeWhile (bs : List Nat) :
    to_utf8 bs =
      if utf8Valid (bs.takeWhile (fun b => b != 0)) then
        some (bs.takeWhile (fun b => b != 0))
      else none := by
  unfold to_utf8
  cases hf : bs.findIdx? (fun b => b == 0) with
  | none => rw [findIdx_none_takeWhile bs 0 hf]
  | some j =>
    obtain ⟨_, htake⟩ := findIdx_some_takeWhile bs 0 j hf
    rw [Nat.sub_zero] at htake
    show (if utf8Valid (bs.take j) = true then some (bs.take j) else none) = _
    rw [htake]


theorem takeWhile_append_zero (rest : List Nat) :
    ∀ (pre : List Nat), (∀ b ∈ pre, b ≠ 0) →
    (pre ++ 0 :: rest).takeWhile (fun b => b != 0) = pre
  | [], _ => by
    unfold List.takeWhile
    simp
  | b :: pre2, hpre => by
    have hb : b ≠ 0 := hpre b (List.mem_cons_self _ _)
    have hb2 : (b != 0) = true := by
      simp [bne, hb]
    rw [List.cons_append]
    unfold List.takeWhile
    rw [hb2]
    rw [takeWhile_append_zero rest pre2
      (fun x hx => hpre x (List.mem_cons_of_mem _ hx))]

theorem mem_take_of_getElem {α : Type} (l : List α) (j k : Nat) (a : α)
    (hj : l[j]? = some a) (hjk : j < k) : a ∈ l.take k := by
  have : (l.take k)[j]? = some a := by
    rw [List.getElem?_take_of_lt hjk]
    exact hj
  exact List.getElem?_mem this

theorem take_mem_getElem {α : Type} (l : List α) (k : Nat) (a : α)
    (hmem : a ∈ l.take k) : ∃ i, i < k ∧ l[i]? = some a := by
  obtain ⟨i, hi⟩ := List.mem_iff_getElem?.mp hmem
  have hik : i < k := by
    have hlen : i < (l.take k).length := by
      by_contra hge
      rw [List.getElem?_eq_none (Nat.le_of_not_lt hge)] at hi
      cases hi
    rw [List.length_take] at hlen
    omega
  refine ⟨i, hik, ?_⟩
  rw [← List.getElem?_take_of_lt hik]
  exact hi

namespace md2

theorem runOn_inv (m : Model) (k : Nat) (s : St) (hv : Valid m)
    (hr : runOn m k = some s) :
    Inv m ((cornersOf m.faces).take k) s := by
  unfold runOn at hr
  cases hf : (decodedFrames m).head? with
  | none => rw [hf] at hr; cases hr
  | some f0 =>
    rw [hf] at hr
    have := inv_run m (m.header.skin_width : ℚ) (m.header.skin_height : ℚ)
      ((cornersOf m.faces).take k) [] (initSt m f0) s
      (fun c hc => (cornersOf_valid m hv c (List.mem_of_mem_take hc)).1)
      (inv_init m f0 hv hf) hr
    simpa using this

theorem writes_vals (m : Model) (w h : ℚ) :
    ∀ (cs : List (Nat × Nat)) (st stF : St),
    runCorners m w h st cs = some stF →
    (∀ wr ∈ st.writes, ∃ tc ∈ m.texcoords,
      wr.2 = ((tc.s : ℚ) / w, (tc.t : ℚ) / h)) →
    ∀ wr ∈ stF.writes, ∃ tc ∈ m.texcoords,
      wr.2 = ((tc.s : ℚ) / w, (tc.t : ℚ) / h)
  | [], st, stF, hr, hbase => by
    unfold runCorners at hr
    cases hr
    exact hbase
  | c :: rest, st, stF, hr, hbase => by
    unfold runCorners at hr
    cases hstep : cornerStep m w h st c with
    | none => rw [hstep] at hr; cases hr
    | some st2 =>
      rw [hstep] at hr
      refine writes_vals m w h rest st2 stF hr ?_
      obtain ⟨tc, htc, hcase⟩ := cornerStep_some m w h st st2 c hstep
      have htcm : tc ∈ m.texcoords := List.get?_mem htc
      rcases hcase with ⟨_, _, rfl⟩ | ⟨sub, i, _, _, rfl⟩ |
        ⟨sub, _, _, _, _, _, rfl⟩
      · intro wr hwr
        rcases List.mem_append.mp hwr with hl | hrr
        · exact hbase wr hl
        · simp only [List.mem_singleton] at hrr
          subst hrr
          exact ⟨tc, htcm, rfl⟩
      · exact hbase
      · intro wr hwr
        rcases List.mem_append.mp hwr with hl | hrr
        · exact hbase wr hl
        · simp only [List.mem_singleton] at hrr
          subst hrr
          exact ⟨tc, htcm, rfl⟩

end md2

namespace mdl

theorem runOn_invM (m : Model) (k : Nat) (s : St) (hv : Valid m)
    (hr : runOn m k = some s) : Inv m s := by
  unfold runOn at hr
  cases hf : (decodedFrames m).head? with
  | none => rw [hf] at hr; cases hr
  | some f0 =>
    rw [hf] at hr
    exact inv_runM m ((cornersOf m.triangles).take k) (initSt m f0) s
      (fun c hc => cornersOf_validM m hv c (List.mem_of_mem_take hc))
      (inv_initM m f0 hv hf) hr

theorem writes_valsM (m : Model) :
    ∀ (cs : List (Bool × Nat)) (st stF : St),
    runCorners m st cs = some stF →
    (∀ wr ∈ st.writes, ∃ p, wr.2 = plainST m p ∨ wr.2 = seamST m p) →
    ∀ wr ∈ stF.writes, ∃ p, wr.2 = plainST m p ∨ wr.2 = seamST m p
  | [], st, stF, hr, hbase => by
    unfold runCorners at hr
    cases hr
    exact hbase
  | c :: rest, st, stF, hr, hbase => by
    unfold runCorners at hr
    cases hstep : cornerStep m st c with
    | none => rw [hstep] at hr; cases hr
    | some st2 =>
      rw [hstep] at hr
      refine writes_valsM m rest st2 stF hr ?_
      obtain ⟨tc, htc, hcase⟩ := cornerStep_someM m st st2 c hstep
      rcases hcase with ⟨_, _, _, _, rfl⟩ | ⟨_, _, rfl⟩
      · intro wr hwr
        rcases List.mem_append.mp hwr with hl | hrr
        · exact hbase wr hl
        · simp only [List.mem_singleton] at hrr
          subst hrr
          exact ⟨c.2, Or.inr rfl⟩
      · intro wr hwr
        rcases List.mem_append.mp hwr with hl | hrr
        · exact hbase wr hl
        · simp only [List.mem_singleton] at hrr
          subst hrr
          exact ⟨c.2, Or.inl rfl⟩

theorem plainST_eq (m : Model) (p : Nat) (tc : TexCoord)
    (htc : m.texcoords.get? p = some tc) :
    plainST m p =
      (((tc.s : ℚ) + 1/2) / (m.header.skin_width : ℚ),
       ((tc.t : ℚ) + 1/2) / (m.header.skin_height : ℚ)) := by
  unfold plainST
  rw [htc]

theorem seamST_eq (m : Model) (p : Nat) (tc : TexCoord)
    (htc : m.texcoords.get? p = some tc) :
    seamST m p =
      (((tc.s : ℚ) + (m.header.skin_width : ℚ) * (1/2) + 1/2) /
         (m.header.skin_width : ℚ),
       ((tc.t : ℚ) + 1/2) / (m.header.skin_height : ℚ)) := by
  unfold seamST
  rw [htc]

end mdl



/-- C1: the spec requires flattening of a model with zero frames or zero
triangles to fail fast with a clear empty-model error. The code does not:
with zero frames both from_md2 and from_mdl panic indexing vertices at 0
(embedded: they return none), and with zero triangles both silently
return a mesh with an empty triangle list. -/
theorem claim_C1 :
    FlatModel.from_md2 md2NoFrames = none ∧
    FlatModel.from_mdl mdlNoFrames = none ∧
    FlatModel.from_md2 md2NoFaces =
      some ⟨[[(5, 6, 7)]], [(0, 0)], []⟩ ∧
    FlatModel.from_mdl mdlNoTris =
      some ⟨[[(5, 6, 7)]], [(0, 0)], []⟩ := by
  refine ⟨rfl, rfl, ?_, ?_⟩
  · norm_num [FlatModel.from_md2, md2.run, md2.decodedFrames, md2NoFaces,
      md2.uncompress, md2.initSt, md2.runCorners, md2.cornersOf, group3]
  · norm_num [FlatModel.from_mdl, mdl.run, mdl.decodedFrames, mdlNoTris,
      mdl.uncompress, mdl.initSt, mdl.runCorners, mdl.cornersOf, group3,
      mdlFrame1]

/-- C2, counterexample: in format A (md2) the stored texcoord of the raw
pair s = 16, t = 8 on a 64 by 64 skin is (16/64, 8/64) = (1/4, 1/8), not
the claimed half-texel form ((16 + 0.5)/64, (8 + 0.5)/64). -/
theorem claim_C2_counterexample :
    FlatModel.from_md2 md2Half =
      some ⟨[[(5, 6, 7)]], [(1/4, 1/8)], [(0, 0, 0)]⟩ ∧
    ¬ ((1/4 : ℚ) = (16 + 1/2) / 64) := by
  constructor
  · norm_num [FlatModel.from_md2, md2.run, md2.decodedFrames, md2Half,
      md2.uncompress, md2.initSt, md2.runCorners, md2.cornersOf, group3,
      md2.cornerStep, alookup, aupdate, List.replicate, List.set, List.take]
  · norm_num

/-- C2, amended: every texcoord assigned during flattening is the raw
coordinate divided by the skin dimension, with the half-texel offset
added in format B only: format A (md2) stores (s/w, t/h) with no offset;
format B (mdl) stores ((s + 0.5)/w, (t + 0.5)/h), plus width/2 on s for
seam-duplicated slots. -/
theorem claim_C2_amended :
    (∀ (m : md2.Model) (st : md2.St), md2.run m = some st →
      ∀ wr ∈ st.writes, ∃ tc ∈ m.texcoords,
        wr.2 = ((tc.s : ℚ) / (m.header.skin_width : ℚ),
                (tc.t : ℚ) / (m.header.skin_height : ℚ))) ∧
    (∀ (m : mdl.Model) (st : mdl.St), mdl.run m = some st →
      ∀ wr ∈ st.writes, ∃ p, wr.2 = mdl.plainST m p ∨
        wr.2 = mdl.seamST m p) := by
  constructor
  · intro m st hrun
    unfold md2.run at hrun
    cases hf : (md2.decodedFrames m).head? with
    | none => rw [hf] at hrun; cases hrun
    | some f0 =>
      rw [hf] at hrun
      refine md2.writes_vals m _ _ (md2.cornersOf m.faces) _ st hrun ?_
      intro wr hwr
      simp [md2.initSt] at hwr
  · intro m st hrun
    unfold mdl.run at hrun
    cases hf : (mdl.decodedFrames m).head? with
    | none => rw [hf] at hrun; cases hrun
    | some f0 =>
      rw [hf] at hrun
      refine mdl.writes_valsM m (mdl.cornersOf m.triangles) _ st hrun ?_
      intro wr hwr
      simp [mdl.initSt] at hwr

/-- C2, amended, witness: instantiation at the concrete md2 model md2Half,
whose single write stores (1/4, 1/8). -/
theorem claim_C2_amended_witness :
    ∃ tc ∈ md2Half.texcoords,
      ((0, ((1 : ℚ)/4, (1 : ℚ)/8)) : Nat × (ℚ × ℚ)).2 =
        ((tc.s : ℚ) / (md2Half.header.skin_width : ℚ),
         (tc.t : ℚ) / (md2Half.header.skin_height : ℚ)) :=
  claim_C2_amended.1 md2Half
    ⟨[[(5, 6, 7)]], [(0, [(0, 0)])], [0, 0, 0],
     [((1 : ℚ)/4, (1 : ℚ)/8), (0, 0)], [(0, ((1 : ℚ)/4, (1 : ℚ)/8))]⟩
    (by norm_num [md2.run, md2.decodedFrames, md2Half, md2.uncompress,
      md2.initSt, md2.runCorners, md2.cornersOf, md2.cornerStep, alookup,
      aupdate, List.replicate, List.set])
    (0, ((1 : ℚ)/4, (1 : ℚ)/8)) (by simp)

/-- C10: name decoding truncates the byte buffer at the first zero byte
(taking the whole buffer only when no zero byte occurs) and validates
exactly that prefix as UTF-8, so bytes after the first zero can never
cause an encoding failure. -/
theorem claim_C10 :
    (∀ bs : List Nat, to_utf8 bs =
      if utf8Valid (bs.takeWhile (fun b => b != 0)) = true then
        some (bs.takeWhile (fun b => b != 0))
      else none) ∧
    (∀ (pre r1 r2 : List Nat), (∀ b ∈ pre, b ≠ 0) →
      to_utf8 (pre ++ 0 :: r1) = to_utf8 (pre ++ 0 :: r2)) := by
  constructor
  · exact to_utf8_takeWhile
  · intro pre r1 r2 hpre
    rw [to_utf8_takeWhile, to_utf8_takeWhile,
      takeWhile_append_zero r1 pre hpre, takeWhile_append_zero r2 pre hpre]

/-- C10, witness: the bytes after the first zero are irrelevant, here an
invalid byte 255 versus a valid tail. -/
theorem claim_C10_witness :
    to_utf8 ([72, 105] ++ 0 :: [255]) = to_utf8 ([72, 105] ++ 0 :: [104]) :=
  claim_C10.2 [72, 105] [255] [104] (by decide)

/-- C6, counterexample: in format B a position referenced by several
non-seam corners has its texcoord slot written once per corner: model
mdlDup writes slot 0 three times, so assignment is not exactly-once. -/
theorem claim_C6_counterexample :
    (mdl.run mdlDup).map (fun s => s.writes.map Prod.fst) =
      some [0, 0, 0] ∧
    ¬ ([0, 0, 0] : List Nat).Nodup := by
  refine ⟨by decide, by decide⟩

/-- C3, counterexample: immediately after the split triggered by the
fourth corner of md2Ex the frames have 5 entries while the texcoord
buffer still has its preallocated 8, so the frame-length/texcoord-length
equality does not hold after every split, only after final truncation. -/
theorem claim_C3_counterexample :
    (md2.runOn md2Ex 3).map (fun s => md2.stLen s) = some 4 ∧
    (md2.runOn md2Ex 4).map (fun s => (md2.stLen s, s.tex.length)) =
      some (5, 8) ∧
    (5 : Nat) ≠ 8 := by
  refine ⟨by decide, by decide, by decide⟩


/-- C3, amended: in every returned FlatModel of either format all
per-frame vertex lists share one length L, the texcoord list has length
exactly L after the final truncation, and every emitted triangle index is
below L; during flattening, however, the texcoord buffer keeps its
preallocated length (twice, resp. three times, the vertex count) after
every prefix of the corner loop, so the frame-length/texcoord-length
equality holds only after the final truncation, not after every split. -/
theorem claim_C3_amended :
    (∀ (m : md2.Model) (fm : FlatModel), md2.Valid m →
      FlatModel.from_md2 m = some fm →
      (∀ fr ∈ fm.vertices, fr.length = flatLen fm) ∧
      fm.texcoords.length = flatLen fm ∧
      (∀ tri ∈ fm.indices, tri.1 < flatLen fm ∧ tri.2.1 < flatLen fm ∧
        tri.2.2 < flatLen fm) ∧
      (∀ (k : Nat) (s : md2.St), md2.runOn m k = some s →
        s.tex.length = 2 * md2.nVerts m)) ∧
    (∀ (m : mdl.Model) (fm : FlatModel), mdl.Valid m →
      FlatModel.from_mdl m = some fm →
      (∀ fr ∈ fm.vertices, fr.length = flatLen fm) ∧
      fm.texcoords.length = flatLen fm ∧
      (∀ tri ∈ fm.indices, tri.1 < flatLen fm ∧ tri.2.1 < flatLen fm ∧
        tri.2.2 < flatLen fm) ∧
      (∀ (k : Nat) (s : mdl.St), mdl.runOn m k = some s →
        s.tex.length = 3 * mdl.nVerts m)) := by
  constructor
  · intro m fm hv hfm
    unfold FlatModel.from_md2 at hfm
    cases hr : md2.run m with
    | none => rw [hr] at hfm; cases hfm
    | some st =>
      rw [hr] at hfm
      replace hfm : (match st.verts.head? with
        | none => none
        | some f0 => some (⟨st.verts, st.tex.take f0.length,
            group3 st.indices⟩ : FlatModel)) = some fm := hfm
      cases hh : st.verts.head? with
      | none => rw [hh] at hfm; cases hfm
      | some f0 =>
        rw [hh] at hfm
        replace hfm : some (⟨st.verts, st.tex.take f0.length,
          group3 st.indices⟩ : FlatModel) = some fm := hfm
        cases hfm
        have hI := md2.run_inv m st hv hr
        have hf0 : f0.length = md2.stLen st := by
          cases hsv : st.verts with
          | nil => rw [hsv] at hh; cases hh
          | cons a r =>
            rw [hsv] at hh
            simp only [List.head?_cons, Option.some.injEq] at hh
            rw [← hh]
            show a.length = md2.stLen st
            have := hI.frames_len a (by rw [hsv]; exact List.mem_cons_self _ _)
            exact this
        have hflat : flatLen ⟨st.verts, st.tex.take f0.length,
            group3 st.indices⟩ = md2.stLen st := rfl
        refine ⟨?_, ?_, ?_, ?_⟩
        · intro fr hfr
          rw [hflat]
          exact hI.frames_len fr hfr
        · show (st.tex.take f0.length).length = _
          rw [hflat, List.length_take, hf0]
          exact min_eq_left hI.len_ub
        · intro tri htri
          rw [hflat]
          obtain ⟨h1, h2, h3⟩ := group3_mem st.indices tri htri
          exact ⟨hI.idx_lt _ h1, hI.idx_lt _ h2, hI.idx_lt _ h3⟩
        · intro k s hs
          exact (md2.runOn_inv m k s hv hs).tex_len
  · intro m fm hv hfm
    unfold FlatModel.from_mdl at hfm
    cases hr : mdl.run m with
    | none => rw [hr] at hfm; cases hfm
    | some st =>
      rw [hr] at hfm
      replace hfm : (match st.verts.head? with
        | none => none
        | some f0 => some (⟨st.verts, st.tex.take f0.length,
            group3 st.indices⟩ : FlatModel)) = some fm := hfm
      cases hh : st.verts.head? with
      | none => rw [hh] at hfm; cases hfm
      | some f0 =>
        rw [hh] at hfm
        replace hfm : some (⟨st.verts, st.tex.take f0.length,
          group3 st.indices⟩ : FlatModel) = some fm := hfm
        cases hfm
        have hI := mdl.run_invM m st hv hr
        have hf0 : f0.length = mdl.stLen st := by
          cases hsv : st.verts with
          | nil => rw [hsv] at hh; cases hh
          | cons a r =>
            rw [hsv] at hh
            simp only [List.head?_cons, Option.some.injEq] at hh
            rw [← hh]
            show a.length = mdl.stLen st
            exact hI.frames_len a (by rw [hsv]; exact List.mem_cons_self _ _)
        have hflat : flatLen ⟨st.verts, st.tex.take f0.length,
            group3 st.indices⟩ = mdl.stLen st := rfl
        refine ⟨?_, ?_, ?_, ?_⟩
        · intro fr hfr
          rw [hflat]
          exact hI.frames_len fr hfr
        · show (st.tex.take f0.length).length = _
          rw [hflat, List.length_take, hf0]
          exact min_eq_left hI.len_ub
        · intro tri htri
          rw [hflat]
          obtain ⟨h1, h2, h3⟩ := group3_mem st.indices tri htri
          exact ⟨hI.idx_lt _ h1, hI.idx_lt _ h2, hI.idx_lt _ h3⟩
        · intro k s hs
          exact (mdl.runOn_invM m k s hv hs).tex_len




/-- C3, amended, witness: instantiation at the concrete models md2Ex and
mdlSeamEx with their flattened outputs. -/
theorem claim_C3_amended_witness :
    md2.Valid md2Ex ∧ mdl.Valid mdlSeamEx ∧
    ((∀ fr ∈ md2ExOut.vertices, fr.length = flatLen md2ExOut) ∧
      md2ExOut.texcoords.length = flatLen md2ExOut ∧
      (∀ tri ∈ md2ExOut.indices, tri.1 < flatLen md2ExOut ∧
        tri.2.1 < flatLen md2ExOut ∧ tri.2.2 < flatLen md2ExOut) ∧
      (∀ (k : Nat) (s : md2.St), md2.runOn md2Ex k = some s →
        s.tex.length = 2 * md2.nVerts md2Ex)) ∧
    ((∀ fr ∈ mdlSeamOut.vertices, fr.length = flatLen mdlSeamOut) ∧
      mdlSeamOut.texcoords.length = flatLen mdlSeamOut ∧
      (∀ tri ∈ mdlSeamOut.indices, tri.1 < flatLen mdlSeamOut ∧
        tri.2.1 < flatLen mdlSeamOut ∧ tri.2.2 < flatLen mdlSeamOut) ∧
      (∀ (k : Nat) (s : mdl.St), mdl.runOn mdlSeamEx k = some s →
        s.tex.length = 3 * mdl.nVerts mdlSeamEx)) := by
  refine ⟨by decide, by decide, ?_, ?_⟩
  · refine claim_C3_amended.1 md2Ex md2ExOut (by decide) ?_
    norm_num [FlatModel.from_md2, md2.run, md2.decodedFrames, md2Ex,
      md2.uncompress, md2.initSt, md2.runCorners, md2.cornersOf, group3,
      md2.cornerStep, alookup, aupdate, List.replicate, List.set,
      List.take, md2ExOut]
  · refine claim_C3_amended.2 mdlSeamEx mdlSeamOut (by decide) ?_
    norm_num [FlatModel.from_mdl, mdl.run, mdl.decodedFrames, mdlSeamEx,
      mdl.uncompress, mdl.initSt, mdl.runCorners, mdl.cornersOf, group3,
      mdl.cornerStep, mdl.plainST, mdl.seamST, List.replicate, List.set,
      List.take, mdlSeamOut, mdlFrame1]




/-- C4: in format A, two triangle corners referencing the same position
index with two different texcoord indices are emitted two distinct
flattened slots; and at the corner where the second texcoord first
appears, every frame grows by exactly one entry whose value is that
frame's original decoded position at the original position index. -/
theorem claim_C4 (m : md2.Model) (j k p t1 t2 : Nat)
    (hv : md2.Valid m)
    (hj : (md2.cornersOf m.faces)[j]? = some (p, t1))
    (hk : (md2.cornersOf m.faces)[k]? = some (p, t2))
    (hjk : j < k) (hne : t1 ≠ t2) :
    (∀ s, md2.run m = some s →
      s.indices[j]? ≠ s.indices[k]? ∧ (s.indices[j]?).isSome = true) ∧
    ((p, t2) ∉ (md2.cornersOf m.faces).take k →
      ∀ s1 s2, md2.runOn m k = some s1 → md2.runOn m (k + 1) = some s2 →
      ∀ i, s2.verts[i]? = (s1.verts[i]?).map
        (fun f => f ++ [((md2.decodedFrames m).getD i []).getD p
          (0, 0, 0)])) := by
  have hpn : p < md2.nVerts m :=
    (md2.cornersOf_valid m hv (p, t1) (List.getElem?_mem hj)).1
  constructor
  · intro s hs
    have hI := md2.run_inv m s hv hs
    have hsj := hI.idx_spec j (p, t1) hj
    have hsk := hI.idx_spec k (p, t2) hk
    have hj_mem : ((p, t1) ∈ md2.cornersOf m.faces) := List.getElem?_mem hj
    have hk_mem : ((p, t2) ∈ md2.cornersOf m.faces) := List.getElem?_mem hk
    obtain ⟨i1, hi1⟩ := Option.isSome_iff_exists.mp
      ((hI.pairs_mem p t1).mpr hj_mem)
    obtain ⟨i2, hi2⟩ := Option.isSome_iff_exists.mp
      ((hI.pairs_mem p t2).mpr hk_mem)
    constructor
    · rw [hsj, hsk, hi1, hi2]
      intro heq
      exact hI.set_inj p t1 t2 i1 i2 hi1 hi2 hne (Option.some.inj heq)
    · rw [hsj, hi1]
      rfl
  · intro hfresh s1 s2 h1 h2
    have hI1 := md2.runOn_inv m k s1 hv h1
    rw [md2.runOn_succ m k (p, t2) hk, h1] at h2
    replace h2 : md2.cornerStep m (m.header.skin_width : ℚ)
      (m.header.skin_height : ℚ) s1 (p, t2) = some s2 := h2
    have hseen : (alookup s1.set p).isSome = true := by
      refine (hI1.pos_mem p).mpr ⟨(p, t1), ?_, rfl⟩
      exact mem_take_of_getElem (md2.cornersOf m.faces) j k (p, t1) hj hjk
    obtain ⟨sub, hsub⟩ := Option.isSome_iff_exists.mp hseen
    have heq2 : alookup2 s1.set p t2 = alookup sub t2 := by
      unfold alookup2
      rw [hsub]
    have hnew : alookup sub t2 = none := by
      cases hlook : alookup sub t2 with
      | none => rfl
      | some i0 =>
        have hpair : (alookup2 s1.set p t2).isSome = true := by
          rw [heq2, hlook]
          rfl
        exact absurd ((hI1.pairs_mem p t2).mp hpair) hfresh
    obtain ⟨tc, htc, hcase⟩ := md2.cornerStep_some m _ _ s1 s2 (p, t2) h2
    rcases hcase with ⟨hnone, _, rfl⟩ | ⟨sub2, i0, hsub2, hi0, rfl⟩ |
      ⟨sub2, hsub2, hi0, hall, hvne, hlen, rfl⟩
    · rw [hsub] at hnone
      cases hnone
    · have hsub2n : alookup s1.set p = some sub2 := hsub2
      have hsubeq : sub2 = sub :=
        Option.some.inj (hsub2n.symm.trans hsub)
      rw [hsubeq, hnew] at hi0
      cases hi0
    · intro i
      show (s1.verts.map (fun f => f ++ [f.getD p (0, 0, 0)]))[i]? = _
      rw [List.getElem?_map]
      cases hvi : s1.verts[i]? with
      | none => rfl
      | some f =>
        simp only [Option.map_some']
        have horig := hI1.orig_take i
        rw [List.getD_eq_getElem?_getD, hvi] at horig
        simp only [Option.getD_some] at horig
        have hgetD : f.getD p (0, 0, 0) =
            ((md2.decodedFrames m).getD i []).getD p (0, 0, 0) := by
          rw [← horig,
            List.getD_eq_getElem?_getD (f.take (md2.nVerts m)) p (0, 0, 0),
            List.getElem?_take_of_lt hpn, ← List.getD_eq_getElem?_getD]
        rw [hgetD]

/-- C4, witness: instantiation at md2Ex, corners 0 and 3 both referencing
position 0 with texcoord indices 0 and 3. -/
theorem claim_C4_witness :
    (∀ s, md2.run md2Ex = some s →
      s.indices[0]? ≠ s.indices[3]? ∧ (s.indices[0]?).isSome = true) ∧
    ((0, 3) ∉ (md2.cornersOf md2Ex.faces).take 3 →
      ∀ s1 s2, md2.runOn md2Ex 3 = some s1 →
        md2.runOn md2Ex 4 = some s2 →
      ∀ i, s2.verts[i]? = (s1.verts[i]?).map
        (fun f => f ++ [((md2.decodedFrames md2Ex).getD i []).getD 0
          (0, 0, 0)])) :=
  claim_C4 md2Ex 0 3 0 0 3 (by decide) (by decide) (by decide)
    (by decide) (by decide)

/-- C5: in format A, two triangle corners carrying the same pair of
position index and texcoord index are emitted the same flattened slot,
and processing the second such corner leaves every frame list unchanged. -/
theorem claim_C5 (m : md2.Model) (j k p t : Nat)
    (hv : md2.Valid m)
    (hj : (md2.cornersOf m.faces)[j]? = some (p, t))
    (hk : (md2.cornersOf m.faces)[k]? = some (p, t))
    (hjk : j < k) :
    (∀ s, md2.run m = some s →
      s.indices[j]? = s.indices[k]? ∧ (s.indices[j]?).isSome = true) ∧
    (∀ s1 s2, md2.runOn m k = some s1 → md2.runOn m (k + 1) = some s2 →
      s2.verts = s1.verts) := by
  constructor
  · intro s hs
    have hI := md2.run_inv m s hv hs
    have hsj := hI.idx_spec j (p, t) hj
    have hsk := hI.idx_spec k (p, t) hk
    obtain ⟨i1, hi1⟩ := Option.isSome_iff_exists.mp
      ((hI.pairs_mem p t).mpr (List.getElem?_mem hj))
    refine ⟨by rw [hsj, hsk], by rw [hsj, hi1]; rfl⟩
  · intro s1 s2 h1 h2
    have hI1 := md2.runOn_inv m k s1 hv h1
    rw [md2.runOn_succ m k (p, t) hk, h1] at h2
    replace h2 : md2.cornerStep m (m.header.skin_width : ℚ)
      (m.header.skin_height : ℚ) s1 (p, t) = some s2 := h2
    have hpair : (alookup2 s1.set p t).isSome = true := by
      refine (hI1.pairs_mem p t).mpr ?_
      exact mem_take_of_getElem (md2.cornersOf m.faces) j k (p, t) hj hjk
    obtain ⟨i0, hi0⟩ := Option.isSome_iff_exists.mp hpair
    obtain ⟨tc, htc, hcase⟩ := md2.cornerStep_some m _ _ s1 s2 (p, t) h2
    rcases hcase with ⟨hnone, _, rfl⟩ | ⟨sub2, i2, hsub2, hi2, rfl⟩ |
      ⟨sub2, hsub2, hi2, _, _, _, rfl⟩
    · have hnone2 : alookup s1.set p = none := hnone
      have heqn : alookup2 s1.set p t = none := by
        unfold alookup2
        rw [hnone2]
      exact Option.noConfusion (heqn.symm.trans hi0)
    · rfl
    · have hsub2n : alookup s1.set p = some sub2 := hsub2
      have hi2n : alookup sub2 t = none := hi2
      have heqn : alookup2 s1.set p t = alookup sub2 t := by
        unfold alookup2
        rw [hsub2n]
      exact Option.noConfusion (hi2n.symm.trans (heqn.symm.trans hi0))

/-- C5, witness: instantiation at md2Ex, corners 2 and 4 both carrying
the pair of position index 2 and texcoord index 2. -/
theorem claim_C5_witness :
    (∀ s, md2.run md2Ex = some s →
      s.indices[2]? = s.indices[4]? ∧ (s.indices[2]?).isSome = true) ∧
    (∀ s1 s2, md2.runOn md2Ex 4 = some s1 →
      md2.runOn md2Ex 5 = some s2 → s2.verts = s1.verts) :=
  claim_C5 md2Ex 2 4 2 2 (by decide) (by decide) (by decide) (by decide)


/-- C6, amended: in format A every texcoord slot is assigned at most once
over the whole run. In format B the seam-duplicated slots (at or beyond
the original vertex count) are each assigned exactly once, but the slot
of a position referenced by several non-seam corners is reassigned once
per corner; every such reassignment writes the value determined by that
position index, so later writes repeat the first. -/
theorem claim_C6_amended :
    (∀ (m : md2.Model) (s : md2.St), md2.Valid m → md2.run m = some s →
      (s.writes.map Prod.fst).Nodup) ∧
    (∀ (m : mdl.Model) (s : mdl.St), mdl.Valid m → mdl.run m = some s →
      (bigSlots (mdl.nVerts m) s.writes).Nodup ∧
      (∀ wr ∈ s.writes, wr.1 < mdl.nVerts m →
        wr.2 = mdl.plainST m wr.1)) := by
  constructor
  · intro m s hv hr
    exact (md2.run_inv m s hv hr).wr_nodup
  · intro m s hv hr
    have hI := mdl.run_invM m s hv hr
    exact ⟨List.Pairwise.imp (fun hab => Nat.ne_of_lt hab)
      hI.wr_big_sorted, hI.wr_small⟩

/-- C6, amended, witness: instantiation at md2Ex and mdlSeamEx. -/
theorem claim_C6_amended_witness :
    md2.Valid md2Ex ∧ mdl.Valid mdlSeamEx ∧
    (∀ s, md2.run md2Ex = some s → (s.writes.map Prod.fst).Nodup) ∧
    (∀ s, mdl.run mdlSeamEx = some s →
      (bigSlots (mdl.nVerts mdlSeamEx) s.writes).Nodup ∧
      (∀ wr ∈ s.writes, wr.1 < mdl.nVerts mdlSeamEx →
        wr.2 = mdl.plainST mdlSeamEx wr.1)) := by
  refine ⟨by decide, by decide, ?_, ?_⟩
  · intro s hs
    exact claim_C6_amended.1 md2Ex s (by decide) hs
  · intro s hs
    exact claim_C6_amended.2 mdlSeamEx s (by decide) hs

/-- C7: in format B a position whose texcoord record is on the seam, used
by one front-facing and one back-facing triangle, yields two distinct
stored texcoords: the original slot holds the plain value and a fresh
seam slot holds the value with the width/2 offset, whose normalized s
exceeds the plain one by exactly one half. -/
theorem claim_C7 (m : mdl.Model) (ta tb : mdl.Triangle) (p : Nat)
    (tc : mdl.TexCoord)
    (hv : mdl.Valid m) (hw : m.header.skin_width ≠ 0)
    (hta : ta ∈ m.triangles) (htb : tb ∈ m.triangles)
    (hfront : ta.facefront ≠ 0) (hback : tb.facefront = 0)
    (hpa : p = ta.vertex.1 ∨ p = ta.vertex.2.1 ∨ p = ta.vertex.2.2)
    (hpb : p = tb.vertex.1 ∨ p = tb.vertex.2.1 ∨ p = tb.vertex.2.2)
    (htc : m.texcoords.get? p = some tc) (hseam : tc.onseam > 0) :
    ∀ s, mdl.run m = some s →
      s.tex[p]? = some (mdl.plainST m p) ∧
      (∃ q, mdl.nVerts m ≤ q ∧ q ≠ p ∧
        s.tex[q]? = some (mdl.seamST m p)) ∧
      (mdl.seamST m p).1 - (mdl.plainST m p).1 = 1 / 2 := by
  intro s hs
  have hpn : p < mdl.nVerts m := by
    have := (hv.2.2 ta hta).1
    rcases hpa with rfl | rfl | rfl
    · exact this.1
    · exact this.2.1
    · exact this.2.2
  have hfc : (false, p) ∈ mdl.cornersOf m.triangles := by
    have := mdl.mem_cornersOf m.triangles ta hta p hpa
    rw [decide_eq_false hfront] at this
    exact this
  have hbc : (true, p) ∈ mdl.cornersOf m.triangles := by
    have := mdl.mem_cornersOf m.triangles tb htb p hpb
    rw [decide_eq_true hback] at this
    exact this
  refine ⟨mdl.run_front_tex m hv s hs p hpn hfc, ?_, ?_⟩
  · obtain ⟨q, hq1, hq2⟩ := mdl.run_back_seam m hv s hs p hpn hbc tc htc hseam
    exact ⟨q, hq1, by omega, hq2⟩
  · rw [mdl.plainST_eq m p tc htc, mdl.seamST_eq m p tc htc]
    have hwq : (m.header.skin_width : ℚ) ≠ 0 := Int.cast_ne_zero.mpr hw
    field_simp
    ring

/-- C7, witness: instantiation at mdlSeamEx, position 0 on the seam used
by the front triangle and the back triangle, with the concrete final
loop state. -/
theorem claim_C7_witness :
    mdlSeamSt.tex[0]? = some (mdl.plainST mdlSeamEx 0) ∧
    (∃ q, mdl.nVerts mdlSeamEx ≤ q ∧ q ≠ 0 ∧
      mdlSeamSt.tex[q]? = some (mdl.seamST mdlSeamEx 0)) ∧
    (mdl.seamST mdlSeamEx 0).1 - (mdl.plainST mdlSeamEx 0).1 = 1 / 2 :=
  claim_C7 mdlSeamEx { facefront := 1, vertex := (0, 0, 0) }
    { facefront := 0, vertex := (0, 0, 0) } 0 ⟨1, 8, 4⟩
    (by decide) (by decide) (by decide) (by decide) (by decide) (by decide)
    (Or.inl rfl) (Or.inl rfl) rfl (by decide) mdlSeamSt
    (by norm_num [mdl.run, mdl.decodedFrames, mdlSeamEx, mdl.uncompress,
      mdl.initSt, mdl.runCorners, mdl.cornersOf, mdl.cornerStep,
      mdl.plainST, mdl.seamST, List.replicate, List.set, mdlSeamSt,
      mdlFrame1])


/-- C8: an mdl frame record declaring a non-zero group type is rejected
by read_frames with the unsupported-variant error, a non-zero skin group
is rejected likewise by read_skins, and when the frames section of the
stream starts with a non-zero group type the whole section-decoding
sequence fails with that error, so no Model record exists to flatten. -/
theorem claim_C8 :
    (∀ (h : mdlDec.DHeader) (s : List Nat) (g : Int) (r : List Nat),
      0 < h.num_frames.toNat → mdlDec.readI32 s = some (g, r) → g ≠ 0 →
      mdlDec.read_frames h s =
        .error (.unsupported "group frames are not supported.")) ∧
    (∀ (h : mdlDec.DHeader) (s : List Nat) (g : Int) (r : List Nat),
      0 < h.num_skins.toNat → mdlDec.readI32 s = some (g, r) → g ≠ 0 →
      mdlDec.read_skins h s =
        .error (.unsupported "skin groups are not supported.")) ∧
    (∀ (h : mdlDec.DHeader) (s : List Nat)
      (sk : List mdlDec.DSkin) (s1 : List Nat)
      (tcs : List mdlDec.DTexCoord) (s2 : List Nat)
      (tris : List mdlDec.DTriangle) (s3 : List Nat) (g : Int) (r : List Nat),
      mdlDec.read_skins h s = .ok (sk, s1) →
      mdlDec.read_texcoords h s1 = .ok (tcs, s2) →
      mdlDec.read_triangles h s2 = .ok (tris, s3) →
      0 < h.num_frames.toNat → mdlDec.readI32 s3 = some (g, r) → g ≠ 0 →
      mdlDec.decodeBody h s =
        .error (.unsupported "group frames are not supported.")) := by
  have hframes : ∀ (h : mdlDec.DHeader) (s : List Nat) (g : Int)
      (r : List Nat), 0 < h.num_frames.toNat →
      mdlDec.readI32 s = some (g, r) → g ≠ 0 →
      mdlDec.read_frames h s =
        .error (.unsupported "group frames are not supported.") := by
    intro h s g r hpos hi32 hg
    unfold mdlDec.read_frames
    obtain ⟨k, hk⟩ :=
      Nat.exists_eq_succ_of_ne_zero (Nat.pos_iff_ne_zero.mp hpos)
    rw [hk]
    unfold mdlDec.readFramesLoop
    simp [hi32, hg]
  refine ⟨hframes, ?_, ?_⟩
  · intro h s g r hpos hi32 hg
    unfold mdlDec.read_skins
    obtain ⟨k, hk⟩ :=
      Nat.exists_eq_succ_of_ne_zero (Nat.pos_iff_ne_zero.mp hpos)
    rw [hk]
    unfold mdlDec.readSkinsLoop
    simp [hi32, hg]
  · intro h s sk s1 tcs s2 tris s3 g r hsk htcs htris hpos hi32 hg
    unfold mdlDec.decodeBody
    rw [hsk]
    show (mdlDec.read_texcoords h s1).bind _ = _
    rw [htcs]
    show (mdlDec.read_triangles h s2).bind _ = _
    rw [htris]
    show (mdlDec.read_frames h s3).bind _ = _
    rw [hframes h s3 g r hpos hi32 hg]
    rfl

/-- C8, witness: a one-frame header whose frame record starts with group
type 1 is rejected, and likewise a one-skin header with skin group 2. -/
theorem claim_C8_witness :
    mdlDec.read_frames dHeaderFrames [1, 0, 0, 0] =
      .error (.unsupported "group frames are not supported.") ∧
    mdlDec.read_skins dHeaderSkins [2, 0, 0, 0] =
      .error (.unsupported "skin groups are not supported.") ∧
    mdlDec.decodeBody dHeaderFrames [1, 0, 0, 0] =
      .error (.unsupported "group frames are not supported.") := by
  refine ⟨?_, ?_, ?_⟩
  · exact claim_C8.1 dHeaderFrames [1, 0, 0, 0] 1 [] (by decide) rfl
      (by decide)
  · exact claim_C8.2.1 dHeaderSkins [2, 0, 0, 0] 2 [] (by decide) rfl
      (by decide)
  · exact claim_C8.2.2 dHeaderFrames [1, 0, 0, 0] [] [1, 0, 0, 0] []
      [1, 0, 0, 0] [] [1, 0, 0, 0] 1 [] rfl rfl rfl (by decide) rfl
      (by decide)

/-- C9: in both formats the texcoord buffer keeps its preallocated fixed
size (twice, resp. three times, the original vertex count n) after every
prefix of the corner loop, and the flattening loop returns if and only if
the flattened length it is heading for fits in that buffer; a model whose
splits push the final length beyond the multiple of n makes the loop hit
an out-of-bounds texcoord write, modelled as none, instead of
returning. -/
theorem claim_C9 :
    (∀ m : md2.Model, md2.Valid m →
      (∀ (k : Nat) (s : md2.St), md2.runOn m k = some s →
        s.tex.length = 2 * md2.nVerts m) ∧
      ((md2.run m).isSome = true ↔ md2.finalLen m ≤ 2 * md2.nVerts m)) ∧
    (∀ m : mdl.Model, mdl.Valid m →
      (∀ (k : Nat) (s : mdl.St), mdl.runOn m k = some s →
        s.tex.length = 3 * mdl.nVerts m) ∧
      ((mdl.run m).isSome = true ↔ mdl.finalLen m ≤ 3 * mdl.nVerts m)) := by
  constructor
  · intro m hv
    exact ⟨fun k s hs => (md2.runOn_inv m k s hv hs).tex_len,
      md2.run_isSome_iff m hv⟩
  · intro m hv
    exact ⟨fun k s hs => (mdl.runOn_invM m k s hv hs).tex_len,
      mdl.run_isSome_iffM m hv⟩

/-- C9, witness: md2Ovf needs three flattened slots against a buffer of
two, and mdlOvf needs four against three; both runs fail instead of
returning. -/
theorem claim_C9_witness :
    md2.Valid md2Ovf ∧ (md2.run md2Ovf).isSome = false ∧
    mdl.Valid mdlOvf ∧ (mdl.run mdlOvf).isSome = false := by
  refine ⟨by decide, ?_, by decide, ?_⟩
  · have hiff := (claim_C9.1 md2Ovf (by decide)).2
    cases hb : (md2.run md2Ovf).isSome with
    | false => rfl
    | true => exact absurd (hiff.mp hb) (by decide)
  · have hiff := (claim_C9.2 mdlOvf (by decide)).2
    cases hb : (mdl.run mdlOvf).isSome with
    | false => rfl
    | true => exact absurd (hiff.mp hb) (by decide)

end ModelReader
